import Mathlib

/-!
# Verification of the Quiz-Application answer-validation and scoring engine

Shallow embedding of the quiz model (`backend/models/quiz.model.js`) and the
service layer (`backend/services/quiz.service.js`).  JavaScript strings are
modelled as `List Char`, JavaScript runtime values passed to the engine as the
inductive `JSVal`, thrown exceptions as `Except String`, and the in-memory
quiz table as a list of quizzes threaded through each service operation.
Timestamps and generated uuids are supplied as explicit parameters: the code
only stores them, never branches on them.
-/

set_option maxHeartbeats 1000000

/-- A JavaScript runtime value, as far as the engine inspects one: the
primitives, arrays and plain objects.  Strings are `List Char`. -/
inductive JSVal where
  | vUndefined : JSVal
  | vNull : JSVal
  | vBool : Bool → JSVal
  | vNum : Int → JSVal
  | vStr : List Char → JSVal
  | vArr : List JSVal → JSVal
  | vObj : List (List Char × JSVal) → JSVal
  deriving Repr

namespace JSVal

/-- JavaScript truthiness: `undefined`, `null`, `false`, `0` and the empty
string are falsy; arrays and objects are always truthy. -/
def truthy : JSVal → Bool
  | vUndefined => false
  | vNull => false
  | vBool b => b
  | vNum n => n != 0
  | vStr s => s != []
  | vArr _ => true
  | vObj _ => true

/-- `typeof v === 'object'`: true for `null`, arrays and plain objects. -/
def typeofObject : JSVal → Bool
  | vNull => true
  | vArr _ => true
  | vObj _ => true
  | _ => false

/-- Property access `v[k]` as the engine uses it (only after an object-ness
check): a missing key or a non-object base yields `undefined`. -/
def getField (v : JSVal) (k : List Char) : JSVal :=
  match v with
  | vObj fields =>
    match fields.find? (fun kv => kv.1 = k) with
    | some kv => kv.2
    | none => vUndefined
  | _ => vUndefined

/-- `v === s` where the right operand is known to be a JS string: strict
equality is true exactly when `v` is the same string. -/
def eqStr (v : JSVal) (s : List Char) : Bool :=
  match v with
  | vStr t => t = s
  | _ => false

end JSVal

mutual

/-- Structural equality of JS values, modelling `Set`'s SameValueZero.  On
primitives this is exact; for arrays/objects SameValueZero is reference
equality, which a value model cannot express — structural equality agrees
with it whenever values are built independently, and the engine discards any
non-string selection entry before it can influence a result. -/
def beqV : JSVal → JSVal → Bool
  | JSVal.vUndefined, JSVal.vUndefined => true
  | JSVal.vNull, JSVal.vNull => true
  | JSVal.vBool a, JSVal.vBool b => a = b
  | JSVal.vNum a, JSVal.vNum b => a = b
  | JSVal.vStr a, JSVal.vStr b => a = b
  | JSVal.vArr a, JSVal.vArr b => beqVList a b
  | JSVal.vObj a, JSVal.vObj b => beqVFields a b
  | _, _ => false

/-- Elementwise `beqV` on arrays. -/
def beqVList : List JSVal → List JSVal → Bool
  | [], [] => true
  | x :: xs, y :: ys => beqV x y && beqVList xs ys
  | _, _ => false

/-- Elementwise `beqV` on object field lists. -/
def beqVFields : List (List Char × JSVal) → List (List Char × JSVal) → Bool
  | [], [] => true
  | (k₁, v₁) :: xs, (k₂, v₂) :: ys => k₁ = k₂ && beqV v₁ v₂ && beqVFields xs ys
  | _, _ => false

end

/-- Loop of `dedupJS`: walk the list, keeping an element only when no
already-kept element is SameValueZero-equal to it, exactly as `Set`
insertion does. -/
def dedupJSAux (seen : List JSVal) : List JSVal → List JSVal
  | [] => []
  | x :: xs =>
    if seen.any (fun y => beqV y x) then dedupJSAux seen xs
    else x :: dedupJSAux (x :: seen) xs

/-- `[...new Set(l)]`: deduplicate keeping first occurrences. -/
def dedupJS (l : List JSVal) : List JSVal := dedupJSAux [] l

/-- An option of a question (`Question.addOption` in quiz.model.js). -/
structure OptionM where
  id : List Char
  text : List Char
  isCorrect : Bool
  deriving DecidableEq, Repr

/-- A question (`Question` in quiz.model.js). -/
structure QuestionM where
  id : List Char
  text : List Char
  qtype : List Char
  options : List OptionM
  createdAt : Nat
  deriving DecidableEq, Repr

/-- The three recognised question-type tags. -/
def singleChoiceT : List Char := "single_choice".toList
def multipleChoiceT : List Char := "multiple_choice".toList
def textT : List Char := "text".toList

namespace QuestionM

/-- `Question.getCorrectOptionIds`. -/
def getCorrectOptionIds (q : QuestionM) : List (List Char) :=
  (q.options.filter (fun o => o.isCorrect)).map (fun o => o.id)

/-- `correct.includes(v)` where `correct` is a list of JS strings and `v` an
arbitrary value: SameValueZero comparison of `v` against each string. -/
def includesId (correct : List (List Char)) (v : JSVal) : Bool :=
  correct.any (fun c => v.eqStr c)

/-- `Question.validateSingleChoice`. -/
def validateSingleChoice (selected : List JSVal) (correct : List (List Char)) : Bool :=
  if selected.length ≠ 1 then false
  else includesId correct (selected.headD JSVal.vUndefined)

/-- `Question.validateMultipleChoice`. -/
def validateMultipleChoice (selected : List JSVal) (correct : List (List Char)) : Bool :=
  if selected.length ≠ correct.length then false
  else
    (selected.all (fun v => includesId correct v)) &&
    (correct.all (fun c => selected.any (fun v => v.eqStr c)))

/-- `Question.validateTextChoice`. -/
def validateTextChoice (selected : List JSVal) (correct : List (List Char)) : Bool :=
  selected.any (fun v => includesId correct v)

/-- `Question.isAnswerCorrect`.  The argument is an arbitrary JS value, as in
the source; non-arrays are rejected up front. -/
def isAnswerCorrect (q : QuestionM) (selectedOptionIds : JSVal) : Bool :=
  match selectedOptionIds with
  | JSVal.vArr ids =>
    let uniqueSelected := dedupJS (ids.filter JSVal.truthy)
    let correctIds := q.getCorrectOptionIds
    if correctIds.length = 0 then false
    else if uniqueSelected.length = 0 then false
    else if ¬ (uniqueSelected.all (fun v => q.options.any (fun o => v.eqStr o.id))) then
      false
    else if q.qtype = singleChoiceT then validateSingleChoice uniqueSelected correctIds
    else if q.qtype = multipleChoiceT then validateMultipleChoice uniqueSelected correctIds
    else if q.qtype = textT then validateTextChoice uniqueSelected correctIds
    else false
  | _ => false

end QuestionM

/-! ## Helper lemmas about the answer-evaluation primitives -/

/-- Strict equality against a string succeeds exactly on that string value. -/
lemma JSVal.eqStr_iff (v : JSVal) (s : List Char) :
    v.eqStr s = true ↔ v = JSVal.vStr s := by
  cases v <;> simp [JSVal.eqStr]

/-- Membership form of the `includes` check on the correct-id list. -/
lemma QuestionM.includesId_iff (correct : List (List Char)) (v : JSVal) :
    QuestionM.includesId correct v = true ↔ ∃ c ∈ correct, v = JSVal.vStr c := by
  simp [QuestionM.includesId, JSVal.eqStr_iff]

/-- Unfolding of `isAnswerCorrect` on an array input whose preamble guards
all pass: evaluation reduces to the type dispatch. -/
lemma QuestionM.isAnswerCorrect_dispatch (q : QuestionM) (ids : List JSVal)
    (hcor : q.getCorrectOptionIds ≠ [])
    (hne : dedupJS (ids.filter JSVal.truthy) ≠ [])
    (hexist : ∀ v ∈ dedupJS (ids.filter JSVal.truthy), ∃ o ∈ q.options, v = JSVal.vStr o.id) :
    q.isAnswerCorrect (JSVal.vArr ids) =
      (if q.qtype = singleChoiceT then
        QuestionM.validateSingleChoice (dedupJS (ids.filter JSVal.truthy)) q.getCorrectOptionIds
      else if q.qtype = multipleChoiceT then
        QuestionM.validateMultipleChoice (dedupJS (ids.filter JSVal.truthy)) q.getCorrectOptionIds
      else if q.qtype = textT then
        QuestionM.validateTextChoice (dedupJS (ids.filter JSVal.truthy)) q.getCorrectOptionIds
      else false) := by
  have hall : (dedupJS (ids.filter JSVal.truthy)).all
      (fun v => q.options.any (fun o => v.eqStr o.id)) = true := by
    rw [List.all_eq_true]
    intro v hv
    obtain ⟨o, ho, rfl⟩ := hexist v hv
    rw [List.any_eq_true]
    exact ⟨o, ho, by simp [JSVal.eqStr]⟩
  simp only [QuestionM.isAnswerCorrect]
  rw [if_neg (by simpa [List.length_eq_zero] using hcor),
      if_neg (by simpa [List.length_eq_zero] using hne),
      if_neg (by simp [hall])]

/-! ## Concrete fixtures used by witnesses -/

/-- Concrete multiple-choice question: options a, b correct, c incorrect. -/
def mcFixture : QuestionM :=
  ⟨['q', '1'], "Select primes".toList, multipleChoiceT,
    [⟨['a'], "2".toList, true⟩, ⟨['b'], "3".toList, true⟩, ⟨['c'], "4".toList, false⟩], 0⟩

/-- Concrete single-choice question: option e correct, d incorrect. -/
def scFixture : QuestionM :=
  ⟨['q', '2'], "What is 2+2?".toList, singleChoiceT,
    [⟨['d'], "3".toList, false⟩, ⟨['e'], "4".toList, true⟩], 0⟩

/-- Concrete text question: options f, g correct, h incorrect. -/
def txFixture : QuestionM :=
  ⟨['q', '3'], "Name a vowel".toList, textT,
    [⟨['f'], "a".toList, true⟩, ⟨['g'], "e".toList, true⟩, ⟨['h'], "x".toList, false⟩], 0⟩

/-! ## C1–C3: per-type answer evaluation -/

/-- C1: for a multiple_choice question whose evaluation preamble passes
(array input, every deduplicated truthy id names an existing option, at
least one id remains, at least one correct option), `isAnswerCorrect` is
true iff the deduplicated selection equals the correct-id set: same size,
every selected id correct, every correct id selected. -/
theorem claim_C1_multipleChoice_iff_set_equality (q : QuestionM) (ids : List JSVal)
    (hty : q.qtype = multipleChoiceT)
    (hexist : ∀ v ∈ dedupJS (ids.filter JSVal.truthy), ∃ o ∈ q.options, v = JSVal.vStr o.id)
    (hne : dedupJS (ids.filter JSVal.truthy) ≠ [])
    (hcor : q.getCorrectOptionIds ≠ []) :
    q.isAnswerCorrect (JSVal.vArr ids) = true ↔
      ((dedupJS (ids.filter JSVal.truthy)).length = q.getCorrectOptionIds.length ∧
       (∀ v ∈ dedupJS (ids.filter JSVal.truthy), ∃ c ∈ q.getCorrectOptionIds, v = JSVal.vStr c) ∧
       (∀ c ∈ q.getCorrectOptionIds, JSVal.vStr c ∈ dedupJS (ids.filter JSVal.truthy))) := by
  rw [QuestionM.isAnswerCorrect_dispatch q ids hcor hne hexist, hty,
      if_neg (by decide), if_pos rfl]
  unfold QuestionM.validateMultipleChoice
  by_cases hlen : (dedupJS (ids.filter JSVal.truthy)).length = q.getCorrectOptionIds.length
  · rw [if_neg (fun h => h hlen)]
    simp [QuestionM.includesId_iff, JSVal.eqStr_iff, hlen]
  · rw [if_pos hlen]
    exact iff_of_false (by simp) (fun hcl => hlen hcl.1)

/-- Witness for C1: the fixture question with both correct ids selected in
reverse order satisfies every hypothesis, and the equivalence holds there. -/
theorem claim_C1_witness :
    (mcFixture.qtype = multipleChoiceT ∧
     (∀ v ∈ dedupJS (([JSVal.vStr ['b'], JSVal.vStr ['a']]).filter JSVal.truthy),
        ∃ o ∈ mcFixture.options, v = JSVal.vStr o.id) ∧
     dedupJS (([JSVal.vStr ['b'], JSVal.vStr ['a']]).filter JSVal.truthy) ≠ [] ∧
     mcFixture.getCorrectOptionIds ≠ []) ∧
    (mcFixture.isAnswerCorrect (JSVal.vArr [JSVal.vStr ['b'], JSVal.vStr ['a']]) = true ↔
      ((dedupJS (([JSVal.vStr ['b'], JSVal.vStr ['a']]).filter JSVal.truthy)).length =
          mcFixture.getCorrectOptionIds.length ∧
       (∀ v ∈ dedupJS (([JSVal.vStr ['b'], JSVal.vStr ['a']]).filter JSVal.truthy),
          ∃ c ∈ mcFixture.getCorrectOptionIds, v = JSVal.vStr c) ∧
       (∀ c ∈ mcFixture.getCorrectOptionIds,
          JSVal.vStr c ∈ dedupJS (([JSVal.vStr ['b'], JSVal.vStr ['a']]).filter JSVal.truthy)))) := by
  refine ⟨⟨rfl, ?_, ?_, ?_⟩, ?_⟩
  · intro v hv
    rw [show dedupJS (([JSVal.vStr ['b'], JSVal.vStr ['a']]).filter JSVal.truthy) =
        [JSVal.vStr ['b'], JSVal.vStr ['a']] from rfl] at hv
    rcases hv with _ | ⟨_, hv⟩
    · exact ⟨⟨['b'], "3".toList, true⟩, by simp [mcFixture], rfl⟩
    · rcases hv with _ | ⟨_, hv⟩
      · exact ⟨⟨['a'], "2".toList, true⟩, by simp [mcFixture], rfl⟩
      · cases hv
  · rw [show dedupJS (([JSVal.vStr ['b'], JSVal.vStr ['a']]).filter JSVal.truthy) =
        [JSVal.vStr ['b'], JSVal.vStr ['a']] from rfl]
    simp
  · rw [show mcFixture.getCorrectOptionIds = [['a'], ['b']] from rfl]
    simp
  · exact claim_C1_multipleChoice_iff_set_equality mcFixture
      [JSVal.vStr ['b'], JSVal.vStr ['a']] rfl
      (by
        intro v hv
        rw [show dedupJS (([JSVal.vStr ['b'], JSVal.vStr ['a']]).filter JSVal.truthy) =
            [JSVal.vStr ['b'], JSVal.vStr ['a']] from rfl] at hv
        rcases hv with _ | ⟨_, hv⟩
        · exact ⟨⟨['b'], "3".toList, true⟩, by simp [mcFixture], rfl⟩
        · rcases hv with _ | ⟨_, hv⟩
          · exact ⟨⟨['a'], "2".toList, true⟩, by simp [mcFixture], rfl⟩
          · cases hv)
      (by
        rw [show dedupJS (([JSVal.vStr ['b'], JSVal.vStr ['a']]).filter JSVal.truthy) =
            [JSVal.vStr ['b'], JSVal.vStr ['a']] from rfl]
        simp)
      (by
        rw [show mcFixture.getCorrectOptionIds = [['a'], ['b']] from rfl]
        simp)

/-- C2: for a single_choice question whose evaluation preamble passes,
`isAnswerCorrect` is true iff exactly one id remains after deduplication and
that id is in the correct-id set. -/
theorem claim_C2_singleChoice_iff_unique_correct (q : QuestionM) (ids : List JSVal)
    (hty : q.qtype = singleChoiceT)
    (hexist : ∀ v ∈ dedupJS (ids.filter JSVal.truthy), ∃ o ∈ q.options, v = JSVal.vStr o.id)
    (hne : dedupJS (ids.filter JSVal.truthy) ≠ [])
    (hcor : q.getCorrectOptionIds ≠ []) :
    q.isAnswerCorrect (JSVal.vArr ids) = true ↔
      (∃ v, dedupJS (ids.filter JSVal.truthy) = [v] ∧
        ∃ c ∈ q.getCorrectOptionIds, v = JSVal.vStr c) := by
  rw [QuestionM.isAnswerCorrect_dispatch q ids hcor hne hexist, hty, if_pos rfl]
  unfold QuestionM.validateSingleChoice
  by_cases hlen : (dedupJS (ids.filter JSVal.truthy)).length = 1
  · obtain ⟨x, hx⟩ := List.length_eq_one.mp hlen
    rw [if_neg (fun h => h hlen), hx]
    simp [QuestionM.includesId_iff]
  · rw [if_pos hlen]
    refine iff_of_false (by simp) ?_
    rintro ⟨v, hv, -⟩
    exact hlen (by rw [hv]; rfl)

/-- Witness for C2: the fixture question with its one correct id selected
satisfies every hypothesis, and the equivalence holds there. -/
theorem claim_C2_witness :
    (scFixture.qtype = singleChoiceT ∧
     (∀ v ∈ dedupJS (([JSVal.vStr ['e']]).filter JSVal.truthy),
        ∃ o ∈ scFixture.options, v = JSVal.vStr o.id) ∧
     dedupJS (([JSVal.vStr ['e']]).filter JSVal.truthy) ≠ [] ∧
     scFixture.getCorrectOptionIds ≠ []) ∧
    (scFixture.isAnswerCorrect (JSVal.vArr [JSVal.vStr ['e']]) = true ↔
      (∃ v, dedupJS (([JSVal.vStr ['e']]).filter JSVal.truthy) = [v] ∧
        ∃ c ∈ scFixture.getCorrectOptionIds, v = JSVal.vStr c)) := by
  have h1 : ∀ v ∈ dedupJS (([JSVal.vStr ['e']]).filter JSVal.truthy),
      ∃ o ∈ scFixture.options, v = JSVal.vStr o.id := by
    intro v hv
    rw [show dedupJS (([JSVal.vStr ['e']]).filter JSVal.truthy) =
        [JSVal.vStr ['e']] from rfl] at hv
    rcases hv with _ | ⟨_, hv⟩
    · exact ⟨⟨['e'], "4".toList, true⟩, by simp [scFixture], rfl⟩
    · cases hv
  have h2 : dedupJS (([JSVal.vStr ['e']]).filter JSVal.truthy) ≠ [] := by
    rw [show dedupJS (([JSVal.vStr ['e']]).filter JSVal.truthy) =
        [JSVal.vStr ['e']] from rfl]
    simp
  have h3 : scFixture.getCorrectOptionIds ≠ [] := by
    rw [show scFixture.getCorrectOptionIds = [['e']] from rfl]
    simp
  exact ⟨⟨rfl, h1, h2, h3⟩,
    claim_C2_singleChoice_iff_unique_correct scFixture [JSVal.vStr ['e']] rfl h1 h2 h3⟩

/-- C3: for a text question whose evaluation preamble passes (in particular
it has at least one correct option), `isAnswerCorrect` is true iff at least
one deduplicated selected id is in the correct-id set; so a selection of
only incorrect ids is false and one correct id among incorrect ids is true. -/
theorem claim_C3_text_iff_some_correct (q : QuestionM) (ids : List JSVal)
    (hty : q.qtype = textT)
    (hexist : ∀ v ∈ dedupJS (ids.filter JSVal.truthy), ∃ o ∈ q.options, v = JSVal.vStr o.id)
    (hne : dedupJS (ids.filter JSVal.truthy) ≠ [])
    (hcor : q.getCorrectOptionIds ≠ []) :
    q.isAnswerCorrect (JSVal.vArr ids) = true ↔
      (∃ v ∈ dedupJS (ids.filter JSVal.truthy),
        ∃ c ∈ q.getCorrectOptionIds, v = JSVal.vStr c) := by
  rw [QuestionM.isAnswerCorrect_dispatch q ids hcor hne hexist, hty,
      if_neg (by decide), if_neg (by decide), if_pos rfl]
  simp [QuestionM.validateTextChoice, QuestionM.includesId_iff]

/-- Witness for C3: the fixture text question with one correct and one
incorrect id selected satisfies every hypothesis, and the equivalence holds
there. -/
theorem claim_C3_witness :
    (txFixture.qtype = textT ∧
     (∀ v ∈ dedupJS (([JSVal.vStr ['f'], JSVal.vStr ['h']]).filter JSVal.truthy),
        ∃ o ∈ txFixture.options, v = JSVal.vStr o.id) ∧
     dedupJS (([JSVal.vStr ['f'], JSVal.vStr ['h']]).filter JSVal.truthy) ≠ [] ∧
     txFixture.getCorrectOptionIds ≠ []) ∧
    (txFixture.isAnswerCorrect (JSVal.vArr [JSVal.vStr ['f'], JSVal.vStr ['h']]) = true ↔
      (∃ v ∈ dedupJS (([JSVal.vStr ['f'], JSVal.vStr ['h']]).filter JSVal.truthy),
        ∃ c ∈ txFixture.getCorrectOptionIds, v = JSVal.vStr c)) := by
  have h1 : ∀ v ∈ dedupJS (([JSVal.vStr ['f'], JSVal.vStr ['h']]).filter JSVal.truthy),
      ∃ o ∈ txFixture.options, v = JSVal.vStr o.id := by
    intro v hv
    rw [show dedupJS (([JSVal.vStr ['f'], JSVal.vStr ['h']]).filter JSVal.truthy) =
        [JSVal.vStr ['f'], JSVal.vStr ['h']] from rfl] at hv
    rcases hv with _ | ⟨_, hv⟩
    · exact ⟨⟨['f'], "a".toList, true⟩, by simp [txFixture], rfl⟩
    · rcases hv with _ | ⟨_, hv⟩
      · exact ⟨⟨['h'], "x".toList, false⟩, by simp [txFixture], rfl⟩
      · cases hv
  have h2 : dedupJS (([JSVal.vStr ['f'], JSVal.vStr ['h']]).filter JSVal.truthy) ≠ [] := by
    rw [show dedupJS (([JSVal.vStr ['f'], JSVal.vStr ['h']]).filter JSVal.truthy) =
        [JSVal.vStr ['f'], JSVal.vStr ['h']] from rfl]
    simp
  have h3 : txFixture.getCorrectOptionIds ≠ [] := by
    rw [show txFixture.getCorrectOptionIds = [['f'], ['g']] from rfl]
    simp
  exact ⟨⟨rfl, h1, h2, h3⟩,
    claim_C3_text_iff_some_correct txFixture [JSVal.vStr ['f'], JSVal.vStr ['h']] rfl h1 h2 h3⟩

/-! ## C7: totality and degradation to false -/

/-- Predicate describing the only selections on which `isAnswerCorrect` can
return true: an array, a question with a correct option, a nonempty
deduplicated truthy selection all of whose entries name existing options,
and a recognised question type. -/
def evaluableSelection (q : QuestionM) (v : JSVal) : Prop :=
  ∃ l, v = JSVal.vArr l ∧
    q.getCorrectOptionIds ≠ [] ∧
    dedupJS (l.filter JSVal.truthy) ≠ [] ∧
    (∀ x ∈ dedupJS (l.filter JSVal.truthy), ∃ o ∈ q.options, x = JSVal.vStr o.id) ∧
    (q.qtype = singleChoiceT ∨ q.qtype = multipleChoiceT ∨ q.qtype = textT)

/-- Counterexample to C7 as stated: the claim says a selection array
containing a falsy id yields false, but the code merely drops falsy entries,
so selecting the correct option together with the falsy empty-string id
yields true. -/
theorem claim_C7_counterexample :
    JSVal.truthy (JSVal.vStr []) = false ∧
    scFixture.isAnswerCorrect (JSVal.vArr [JSVal.vStr ['e'], JSVal.vStr []]) = true :=
  ⟨rfl, rfl⟩

/-- C7 (amended): `isAnswerCorrect` is a total function into `Bool` (so it
never raises), and it returns false on every malformed input — non-arrays,
empty or all-falsy arrays, arrays whose remaining truthy ids include one
naming no option, questions with no correct option, and unrecognised types.
Falsy entries are dropped rather than forcing a false result.  Stated
contrapositively: a true result implies the selection was well formed. -/
theorem claim_C7_amended_false_on_malformed (q : QuestionM) (v : JSVal)
    (h : q.isAnswerCorrect v = true) : evaluableSelection q v := by
  cases v with
  | vArr l =>
    refine ⟨l, rfl, ?_⟩
    simp only [QuestionM.isAnswerCorrect] at h
    by_cases h1 : q.getCorrectOptionIds.length = 0
    · rw [if_pos h1] at h
      cases h
    · rw [if_neg h1] at h
      by_cases h2 : (dedupJS (l.filter JSVal.truthy)).length = 0
      · rw [if_pos h2] at h
        cases h
      · rw [if_neg h2] at h
        by_cases h3 : (dedupJS (l.filter JSVal.truthy)).all
            (fun x => q.options.any (fun o => x.eqStr o.id)) = true
        · rw [if_neg (by simp [h3])] at h
          refine ⟨fun hc => h1 (by rw [hc]; rfl),
                  fun hn => h2 (by rw [hn]; rfl), ?_, ?_⟩
          · intro x hx
            have := List.all_eq_true.mp h3 x hx
            rw [List.any_eq_true] at this
            obtain ⟨o, ho, heq⟩ := this
            exact ⟨o, ho, (JSVal.eqStr_iff x o.id).mp heq⟩
          · by_cases t1 : q.qtype = singleChoiceT
            · exact Or.inl t1
            · by_cases t2 : q.qtype = multipleChoiceT
              · exact Or.inr (Or.inl t2)
              · by_cases t3 : q.qtype = textT
                · exact Or.inr (Or.inr t3)
                · rw [if_neg t1, if_neg t2, if_neg t3] at h
                  cases h
        · rw [if_pos (by simp [h3])] at h
          cases h
  | vUndefined => cases h
  | vNull => cases h
  | vBool b => cases h
  | vNum n => cases h
  | vStr s => cases h
  | vObj fs => cases h

/-- Witness for C7 (amended): a true evaluation on the fixture yields a
well-formed selection. -/
theorem claim_C7_amended_witness :
    scFixture.isAnswerCorrect (JSVal.vArr [JSVal.vStr ['e']]) = true ∧
    evaluableSelection scFixture (JSVal.vArr [JSVal.vStr ['e']]) :=
  ⟨rfl, claim_C7_amended_false_on_malformed scFixture (JSVal.vArr [JSVal.vStr ['e']]) rfl⟩

/-! ## String trimming and question structural validation -/

/-- Whitespace as `String.prototype.trim` removes (the ASCII portion:
space, tab, newline, carriage return, vertical tab, form feed). -/
def isJsWs (c : Char) : Bool :=
  c = ' ' || c = '\t' || c = '\n' || c = '\r' || c = Char.ofNat 11 || c = Char.ofNat 12

/-- Remove trailing whitespace. -/
def trimRight : List Char → List Char
  | [] => []
  | c :: rest =>
    if trimRight rest = [] && isJsWs c then [] else c :: trimRight rest

/-- `s.trim()`: remove leading and trailing whitespace. -/
def jsTrim (l : List Char) : List Char := trimRight (l.dropWhile isJsWs)

/-- A question made from the texts of Scenario 4: a multiple_choice question
whose three options are all marked correct. -/
def mcAllCorrectFixture : QuestionM :=
  ⟨['q', '4'], "Select primes".toList, multipleChoiceT,
    [⟨['x'], "2".toList, true⟩, ⟨['y'], "3".toList, true⟩, ⟨['z'], "5".toList, true⟩], 0⟩

namespace QuestionM

/-- `Question.validateByType` (quiz.model.js). -/
def validateByType (q : QuestionM) (correctOptions : List OptionM) : Except String Unit :=
  if q.qtype = singleChoiceT then
    if correctOptions.length ≠ 1 then
      Except.error "Single choice questions can only have one correct answer"
    else if q.options.length < 2 then
      Except.error "Single choice questions must have at least 2 options"
    else Except.ok ()
  else if q.qtype = multipleChoiceT then
    if correctOptions.length < 2 then
      Except.error "Multiple choice questions must have at least 2 correct answers"
    else if correctOptions.length = q.options.length then
      Except.error "Multiple choice questions must have at least one incorrect option"
    else if q.options.length < 3 then
      Except.error "Multiple choice questions must have at least 3 options"
    else Except.ok ()
  else if q.qtype = textT then
    if 300 < q.text.length then
      Except.error "Text-based question cannot exceed 300 characters"
    else Except.ok ()
  else Except.error ("Invalid question type: " ++ q.qtype.asString)

/-- `Question.validate` (quiz.model.js).  The falsy-text and is-array checks
of the source are subsumed here: an empty string trims to length 0 and
`options` is a list by construction. -/
def validate (q : QuestionM) : Except String Unit :=
  if jsTrim q.text = [] then Except.error "Question text cannot be empty"
  else if q.options = [] then Except.error "At least one option is required"
  else if q.options.filter (fun o => o.isCorrect) = [] then
    Except.error "At least one correct answer is required"
  else q.validateByType (q.options.filter (fun o => o.isCorrect))

end QuestionM

/-- Splitting a list by a boolean predicate preserves its length. -/
lemma length_filter_add_filter_not {α : Type} (p : α → Bool) (l : List α) :
    (l.filter p).length + (l.filter (fun x => !p x)).length = l.length := by
  induction l with
  | nil => rfl
  | cons a t ih =>
    by_cases h : p a <;> simp [List.filter_cons, h, ← ih] <;> omega

/-! ## C8: question validation enforces the type-specific rules -/

/-- C8: question validation at add time enforces the type rules — a
single_choice question validates only with exactly 1 correct option and at
least 2 options; a multiple_choice question validates only with at least 2
correct options, at least 1 incorrect option and at least 3 options; and
Scenario 4 (a multiple_choice question with all 3 options correct) is
rejected with exactly the message about needing an incorrect option. -/
theorem claim_C8_validate_enforces_type_rules :
    (∀ q : QuestionM, q.qtype = singleChoiceT → q.validate = Except.ok () →
      (q.options.filter (fun o => o.isCorrect)).length = 1 ∧ 2 ≤ q.options.length) ∧
    (∀ q : QuestionM, q.qtype = multipleChoiceT → q.validate = Except.ok () →
      2 ≤ (q.options.filter (fun o => o.isCorrect)).length ∧
      1 ≤ (q.options.filter (fun o => !o.isCorrect)).length ∧
      3 ≤ q.options.length) ∧
    mcAllCorrectFixture.validate =
      Except.error "Multiple choice questions must have at least one incorrect option" := by
  refine ⟨?_, ?_, rfl⟩
  · intro q hty hok
    unfold QuestionM.validate at hok
    by_cases h1 : jsTrim q.text = []
    · rw [if_pos h1] at hok; cases hok
    · rw [if_neg h1] at hok
      by_cases h2 : q.options = []
      · rw [if_pos h2] at hok; cases hok
      · rw [if_neg h2] at hok
        by_cases h3 : q.options.filter (fun o => o.isCorrect) = []
        · rw [if_pos h3] at hok; cases hok
        · rw [if_neg h3] at hok
          unfold QuestionM.validateByType at hok
          rw [if_pos hty] at hok
          by_cases h4 : (q.options.filter (fun o => o.isCorrect)).length ≠ 1
          · rw [if_pos h4] at hok; cases hok
          · rw [if_neg h4] at hok
            by_cases h5 : q.options.length < 2
            · rw [if_pos h5] at hok; cases hok
            · exact ⟨not_not.mp h4, le_of_not_lt h5⟩
  · intro q hty hok
    unfold QuestionM.validate at hok
    by_cases h1 : jsTrim q.text = []
    · rw [if_pos h1] at hok; cases hok
    · rw [if_neg h1] at hok
      by_cases h2 : q.options = []
      · rw [if_pos h2] at hok; cases hok
      · rw [if_neg h2] at hok
        by_cases h3 : q.options.filter (fun o => o.isCorrect) = []
        · rw [if_pos h3] at hok; cases hok
        · rw [if_neg h3] at hok
          unfold QuestionM.validateByType at hok
          rw [if_neg (by rw [hty]; decide), if_pos hty] at hok
          by_cases h4 : (q.options.filter (fun o => o.isCorrect)).length < 2
          · rw [if_pos h4] at hok; cases hok
          · rw [if_neg h4] at hok
            by_cases h5 : (q.options.filter (fun o => o.isCorrect)).length = q.options.length
            · rw [if_pos h5] at hok; cases hok
            · rw [if_neg h5] at hok
              by_cases h6 : q.options.length < 3
              · rw [if_pos h6] at hok; cases hok
              · have hsplit := length_filter_add_filter_not (fun o => o.isCorrect) q.options
                have hle : (q.options.filter (fun o => o.isCorrect)).length ≤ q.options.length :=
                  List.length_filter_le _ _
                exact ⟨le_of_not_lt h4, by omega, le_of_not_lt h6⟩

/-- Witness for C8: instantiating the single_choice rule at the fixture
question, whose validation succeeds. -/
theorem claim_C8_witness :
    scFixture.qtype = singleChoiceT ∧ scFixture.validate = Except.ok () ∧
    ((scFixture.options.filter (fun o => o.isCorrect)).length = 1 ∧
      2 ≤ scFixture.options.length) :=
  ⟨rfl, rfl, claim_C8_validate_enforces_type_rules.1 scFixture rfl rfl⟩

/-! ## The quiz data model and the service layer -/

/-- A quiz (`Quiz` in quiz.model.js). -/
structure QuizM where
  id : List Char
  title : List Char
  questions : List QuestionM
  createdAt : Nat
  updatedAt : Nat
  deriving DecidableEq, Repr

/-- `Question.getPublicView`: the answer-free projection of a question,
rendered as the JS object the route returns. -/
def QuestionM.getPublicView (q : QuestionM) : JSVal :=
  JSVal.vObj
    [("id".toList, JSVal.vStr q.id),
     ("text".toList, JSVal.vStr q.text),
     ("type".toList, JSVal.vStr q.qtype),
     ("options".toList, JSVal.vArr (q.options.map (fun o =>
        JSVal.vObj [("id".toList, JSVal.vStr o.id), ("text".toList, JSVal.vStr o.text)])))]

/-- `Quiz.getQuestionsWithoutAnswers`. -/
def QuizM.getQuestionsWithoutAnswers (quiz : QuizM) : List JSVal :=
  quiz.questions.map QuestionM.getPublicView

mutual

/-- String interpolation of a JS value into an error message (template
literal).  Arrays display as their elements joined by commas; nested
null/undefined display slightly differently in JS, but no claim depends on
an interpolated message. -/
def jsDisplay : JSVal → String
  | JSVal.vUndefined => "undefined"
  | JSVal.vNull => "null"
  | JSVal.vBool b => if b then "true" else "false"
  | JSVal.vNum n => toString n
  | JSVal.vStr s => s.asString
  | JSVal.vArr xs => jsDisplayList xs
  | JSVal.vObj _ => "[object Object]"

/-- Comma-joined display of array elements. -/
def jsDisplayList : List JSVal → String
  | [] => ""
  | [x] => jsDisplay x
  | x :: xs => jsDisplay x ++ "," ++ jsDisplayList xs

end

/-- The in-memory quiz table (`this.quizzes`), in insertion order. -/
abbrev ServiceState := List QuizM

/-- Payload for one option of an add-question request, after transport
deserialization.  A missing `isCorrect` is the default `false`, as
`Boolean(undefined)` gives in `addOption`. -/
structure OptionData where
  text : List Char
  isCorrect : Bool
  deriving DecidableEq, Repr

/-- Payload of an add-question request. -/
structure QuestionData where
  text : List Char
  qtype : List Char
  options : List OptionData
  deriving DecidableEq, Repr

namespace QuizService

/-- `QuizService.validateQuizId`. -/
def validateQuizId (quizId : JSVal) : Except String Unit :=
  if ¬ quizId.truthy then Except.error "Quiz ID is required"
  else match quizId with
    | JSVal.vStr _ => Except.ok ()
    | _ => Except.error "Quiz ID must be a string"

/-- `this.quizzes.get(id)` on the table. -/
def findQuiz (s : ServiceState) (id : List Char) : Option QuizM :=
  s.find? (fun q => q.id = id)

/-- `this.quizzes.set(quiz.id, quiz)`: replace in place when the key is
present, append otherwise. -/
def storeQuiz (s : ServiceState) (quiz : QuizM) : ServiceState :=
  if s.any (fun x => x.id = quiz.id) then
    s.map (fun x => if x.id = quiz.id then quiz else x)
  else s ++ [quiz]

/-- `QuizService.getQuiz`: validate the id, then look it up. -/
def getQuiz (s : ServiceState) (quizId : JSVal) : Except String QuizM :=
  match validateQuizId quizId with
  | Except.error e => Except.error e
  | Except.ok _ =>
    match quizId with
    | JSVal.vStr id =>
      match findQuiz s id with
      | some q => Except.ok q
      | none => Except.error "Quiz not found"
    | _ => Except.error "Quiz ID must be a string"

/-- `QuizService.createQuiz`.  The fresh uuid and the creation instant are
explicit parameters. -/
def createQuiz (s : ServiceState) (title : JSVal) (newId : List Char) (now : Nat) :
    Except String QuizM × ServiceState :=
  match title with
  | JSVal.vUndefined => (Except.error "Quiz title is required", s)
  | JSVal.vNull => (Except.error "Quiz title is required", s)
  | JSVal.vStr t =>
    let trimmedTitle := jsTrim t
    if trimmedTitle.length = 0 then (Except.error "Quiz title is required", s)
    else if trimmedTitle.length < 3 then
      (Except.error "Quiz title must be at least 3 characters long", s)
    else if 200 < trimmedTitle.length then
      (Except.error "Quiz title cannot exceed 200 characters", s)
    else
      let quiz : QuizM := ⟨newId, trimmedTitle, [], now, now⟩
      (Except.ok quiz, storeQuiz s quiz)
  | _ => (Except.error "Quiz title must be a string", s)

/-- `QuizService.updateQuizTitle`.  Note the source checks only
non-emptiness and the 200-character maximum here — there is no 3-character
minimum on update. -/
def updateQuizTitle (s : ServiceState) (quizId newTitle : JSVal) (now : Nat) :
    Except String QuizM × ServiceState :=
  match getQuiz s quizId with
  | Except.error e => (Except.error e, s)
  | Except.ok quiz =>
    match newTitle with
    | JSVal.vStr t =>
      if (t : List Char) = [] then (Except.error "New title must be a non-empty string", s)
      else
        let trimmedTitle := jsTrim t
        if trimmedTitle.length = 0 then (Except.error "Quiz title cannot be empty", s)
        else if 200 < trimmedTitle.length then
          (Except.error "Quiz title cannot exceed 200 characters", s)
        else
          let updated := { quiz with title := trimmedTitle, updatedAt := now }
          (Except.ok updated, s.map (fun x => if x.id = quiz.id then updated else x))
    | _ => (Except.error "New title must be a non-empty string", s)

/-- `QuizService.deleteQuiz`. -/
def deleteQuiz (s : ServiceState) (quizId : JSVal) : Except String Bool × ServiceState :=
  match getQuiz s quizId with
  | Except.error e => (Except.error e, s)
  | Except.ok _ =>
    match quizId with
    | JSVal.vStr id => (Except.ok true, s.filter (fun x => ¬ x.id = id))
    | _ => (Except.ok true, s)

/-- `QuizService.validateQuestionData` on the deserialized payload; the
string-typing probes of the source are moot on this domain. -/
def validateQuestionData (qd : QuestionData) : Except String Unit :=
  let trimmedText := jsTrim qd.text
  if trimmedText = [] then Except.error "Question text cannot be empty"
  else if qd.qtype = textT && 300 < trimmedText.length then
    Except.error "Text-based question cannot exceed 300 characters"
  else if 1000 < trimmedText.length then
    Except.error "Question text cannot exceed 1000 characters"
  else if qd.qtype = [] then Except.error "Question type is required"
  else if ¬ (qd.qtype = singleChoiceT ∨ qd.qtype = multipleChoiceT ∨ qd.qtype = textT) then
    Except.error ("Invalid question type: \"" ++ qd.qtype.asString ++
      "\". Must be one of: single_choice, multiple_choice, text")
  else Except.ok ()

/-- Loop body of `addOptionsToQuestion`: validate each option and build the
stored options, tracking lower-cased texts for the duplicate check.  The
fresh option uuids come from `gen`. -/
def buildOptions (gen : Nat → List Char) :
    List OptionData → Nat → List (List Char) → Except String (List OptionM)
  | [], _, _ => Except.ok []
  | od :: rest, idx, seenTexts =>
    let trimmedText := jsTrim od.text
    if trimmedText = [] then
      Except.error ("Option " ++ toString (idx + 1) ++ " text cannot be empty")
    else if 500 < trimmedText.length then
      Except.error ("Option " ++ toString (idx + 1) ++ " text cannot exceed 500 characters")
    else
      let lower := trimmedText.map Char.toLower
      if lower ∈ seenTexts then
        Except.error ("Duplicate option text found: \"" ++ trimmedText.asString ++ "\"")
      else
        match buildOptions gen rest (idx + 1) (lower :: seenTexts) with
        | Except.error e => Except.error e
        | Except.ok opts => Except.ok (⟨gen idx, trimmedText, od.isCorrect⟩ :: opts)

/-- `QuizService.addOptionsToQuestion`: array-shape checks then the loop. -/
def addOptionsChecked (gen : Nat → List Char) (options : List OptionData) :
    Except String (List OptionM) :=
  if options = [] then Except.error "At least one option is required"
  else if 10 < options.length then Except.error "Question cannot have more than 10 options"
  else buildOptions gen options 0 []

/-- `QuizService.addQuestion`: find the quiz, validate the payload, build
and validate the question, then append it to the quiz. -/
def addQuestion (s : ServiceState) (quizId : JSVal) (qd : QuestionData)
    (qid : List Char) (gen : Nat → List Char) (now : Nat) :
    Except String QuestionM × ServiceState :=
  match getQuiz s quizId with
  | Except.error e => (Except.error e, s)
  | Except.ok quiz =>
    match validateQuestionData qd with
    | Except.error e => (Except.error e, s)
    | Except.ok _ =>
      match addOptionsChecked gen qd.options with
      | Except.error e => (Except.error e, s)
      | Except.ok opts =>
        let question : QuestionM := ⟨qid, jsTrim (jsTrim qd.text), qd.qtype, opts, now⟩
        match question.validate with
        | Except.error e => (Except.error e, s)
        | Except.ok _ =>
          let updated := { quiz with questions := quiz.questions ++ [question], updatedAt := now }
          (Except.ok question, s.map (fun x => if x.id = quiz.id then updated else x))

/-- `QuizService.getQuizQuestions`. -/
def getQuizQuestions (s : ServiceState) (quizId : JSVal) : Except String (List JSVal) :=
  match getQuiz s quizId with
  | Except.error e => Except.error e
  | Except.ok quiz =>
    if quiz.questions = [] then Except.error "Quiz has no questions yet"
    else Except.ok quiz.getQuestionsWithoutAnswers

/-- Per-entry loop of `QuizService.validateAnswersFormat`, carrying the
entry index and the set of already-answered question ids. -/
def checkEntries (quiz : QuizM) : List JSVal → Nat → List (List Char) → Except String Unit
  | [], _, _ => Except.ok ()
  | e :: rest, idx, seen =>
    if ¬ (e.truthy && e.typeofObject) then
      Except.error ("Answer " ++ toString (idx + 1) ++ " must be an object")
    else if ¬ (e.getField "questionId".toList).truthy then
      Except.error ("Answer " ++ toString (idx + 1) ++ " is missing questionId")
    else
      match e.getField "questionId".toList with
      | JSVal.vStr qid =>
        if ¬ quiz.questions.any (fun q => q.id = qid) then
          Except.error ("Question " ++ qid.asString ++ " not found in this quiz")
        else if qid ∈ seen then
          Except.error ("Duplicate answer for question " ++ qid.asString)
        else
          match e.getField "selectedOptionIds".toList with
          | JSVal.vArr sel =>
            if sel.length = 0 then
              Except.error ("Answer " ++ toString (idx + 1) ++
                " must have at least one selected option")
            else checkEntries quiz rest (idx + 1) (qid :: seen)
          | _ =>
            Except.error ("Answer " ++ toString (idx + 1) ++
              " must have selectedOptionIds as an array")
      | qv =>
        Except.error ("Question " ++ jsDisplay qv ++ " not found in this quiz")

/-- `QuizService.validateAnswersFormat`: the quiz-level envelope check. -/
def validateAnswersFormat (answers : JSVal) (quiz : QuizM) : Except String Unit :=
  match answers with
  | JSVal.vArr entries =>
    if entries.length = 0 then Except.error "At least one answer must be provided"
    else if quiz.questions.length < entries.length then
      Except.error "Number of answers exceeds number of questions"
    else checkEntries quiz entries 0 []
  | _ => Except.error "Answers must be an array"

/-- `QuizService.getOptionDetails`: resolve ids to `(id, text)` pairs,
dropping ids that no longer resolve. -/
def getOptionDetails (question : QuestionM) (optionIds : List JSVal) :
    List (List Char × List Char) :=
  optionIds.filterMap (fun idv =>
    (question.options.find? (fun o => idv.eqStr o.id)).map (fun o => (o.id, o.text)))

/-- Per-question result entry built by `processAnswers`. -/
structure ResultEntry where
  questionId : JSVal
  questionText : List Char
  questionType : List Char
  selectedOptionIds : JSVal
  correctOptionIds : List (List Char)
  isCorrect : Bool
  selectedOptions : List (List Char × List Char)
  correctOptions : List (List Char × List Char)
  deriving Repr

/-- Option-existence check inside `processAnswers`: every raw selected id
must name an option of the question. -/
def checkOptionIdsExist (question : QuestionM) : List JSVal → Except String Unit
  | [] => Except.ok ()
  | idv :: rest =>
    if question.options.any (fun o => idv.eqStr o.id) then checkOptionIdsExist question rest
    else
      Except.error ("Invalid option ID: " ++ jsDisplay idv ++ " for question " ++
        question.id.asString)

/-- `QuizService.processAnswers`.  The error branches for a missing
question or a non-array selection model the TypeError the source would
throw there; both are unreachable after `validateAnswersFormat`. -/
def processAnswers (quiz : QuizM) : List JSVal → Except String (List ResultEntry)
  | [] => Except.ok []
  | a :: rest =>
    let qv := a.getField "questionId".toList
    match quiz.questions.find? (fun q => qv.eqStr q.id) with
    | none => Except.error "TypeError: Cannot read properties of null"
    | some question =>
      match a.getField "selectedOptionIds".toList with
      | JSVal.vArr sel =>
        match checkOptionIdsExist question sel with
        | Except.error e => Except.error e
        | Except.ok _ =>
          match processAnswers quiz rest with
          | Except.error e => Except.error e
          | Except.ok results =>
            Except.ok
              ({ questionId := qv
                 questionText := question.text
                 questionType := question.qtype
                 selectedOptionIds := JSVal.vArr sel
                 correctOptionIds := question.getCorrectOptionIds
                 isCorrect := question.isAnswerCorrect (JSVal.vArr sel)
                 selectedOptions := getOptionDetails question sel
                 correctOptions :=
                   getOptionDetails question (question.getCorrectOptionIds.map JSVal.vStr) }
                :: results)
      | _ => Except.error "TypeError: selectedOptionIds is not iterable"

/-- `QuizService.calculateGrade`. -/
def calculateGrade (percentage : Nat) : String :=
  if 90 ≤ percentage then "A"
  else if 80 ≤ percentage then "B"
  else if 70 ≤ percentage then "C"
  else if 60 ≤ percentage then "D"
  else "F"

/-- Fuel-driven binary logarithm loop (structural so the kernel can
evaluate it). -/
def log2Fuel : Nat → Nat → Nat
  | 0, _ => 0
  | fuel + 1, n => if n ≤ 1 then 0 else log2Fuel fuel (n / 2) + 1

/-- Floor of the base-2 logarithm of a positive natural. -/
def nlog2 (n : Nat) : Nat := log2Fuel n n

/-- Ceiling of the base-2 logarithm: the least m with x ≤ 2 ^ m. -/
def nclog2 (x : Nat) : Nat := if x ≤ 1 then 0 else nlog2 (x - 1) + 1

/-- Round n / d to the nearest integer, ties to even — the IEEE 754
round-to-nearest-even step used by every binary64 operation. -/
def rneNat (n d : Nat) : Nat :=
  let q := n / d
  let r := n % d
  if 2 * r < d then q
  else if d < 2 * r then q + 1
  else if q % 2 = 0 then q else q + 1

/-- The binary64 result of the JS division s / t for integer operands,
as a dyadic pair (mantissa, exponent) whose value is m·2^e: scale the
exact quotient so its integer part has 53 bits, then round to nearest,
ties to even.  Integer operands below 2^53 (array lengths here) are
themselves exact doubles, and all values stay far inside the normal
range, so no operand-conversion or subnormal cases arise. -/
def fl64Div (s t : Nat) : Nat × Int :=
  if s = 0 then (0, 0)
  else
    let L : Int := if t ≤ s then (nlog2 (s / t) : Int) else -(nclog2 ((t + s - 1) / s) : Int)
    match L - 52 with
    | Int.ofNat k => (rneNat s (t * 2 ^ k), Int.ofNat k)
    | Int.negSucc k => (rneNat (s * 2 ^ (k + 1)) t, Int.negSucc k)

/-- Round a dyadic value M·2^e (an exact product of a double by a small
integer) back to 53 significant bits — the rounding the JS multiplication
performs. -/
def fl64Mant (M : Nat) (e : Int) : Nat × Int :=
  if M < 2 ^ 53 then (M, e)
  else
    let k := nlog2 M - 52
    (rneNat M (2 ^ k), e + k)

/-- `Math.round` on a nonnegative dyadic value: per ECMA-262 this is the
exact nearest integer with ties toward +∞, ⌊m·2^e + 1/2⌋. -/
def mathRoundDyadic (m : Nat) (e : Int) : Nat :=
  match e with
  | Int.ofNat k => m * 2 ^ k
  | Int.negSucc k => (2 * m + 2 ^ (k + 1)) / 2 ^ (k + 2)

/-- `Math.round((s / t) * 100)` as the source computes it: one binary64
division, one binary64 multiplication by the exact constant 100, then the
exact `Math.round`.  At s = 23, t = 40 this yields 57 where exact half-up
rounding of the rational 57.5 would yield 58. -/
def percentageJS (s t : Nat) : Nat :=
  let q1 := fl64Div s t
  let q2 := fl64Mant (q1.1 * 100) q1.2
  mathRoundDyadic q2.1 q2.2

/-- Aggregate statistics of a submission (`calculateStatistics` result). -/
structure Stats where
  score : Nat
  total : Nat
  percentage : Nat
  answeredCount : Nat
  unansweredCount : Int
  passed : Bool
  grade : String
  deriving DecidableEq, Repr

/-- `QuizService.calculateStatistics`. -/
def calculateStatistics (results : List ResultEntry) (totalQuestions : Nat) : Stats :=
  let correctCount := (results.filter (fun r => r.isCorrect)).length
  let percentage :=
    if 0 < totalQuestions then percentageJS correctCount totalQuestions else 0
  { score := correctCount
    total := totalQuestions
    percentage := percentage
    answeredCount := results.length
    unansweredCount := (totalQuestions : Int) - results.length
    passed := 60 ≤ percentage
    grade := calculateGrade percentage }

/-- Result of `submitQuizAnswers`: the spread statistics, the per-question
results and the submission instant. -/
structure SubmitResult where
  stats : Stats
  results : List ResultEntry
  submittedAt : Nat
  deriving Repr

/-- `QuizService.submitQuizAnswers`.  Every step only reads the table, so
the state component is returned unchanged on every path. -/
def submitQuizAnswers (s : ServiceState) (quizId answers : JSVal) (now : Nat) :
    Except String SubmitResult × ServiceState :=
  match getQuiz s quizId with
  | Except.error e => (Except.error e, s)
  | Except.ok quiz =>
    if quiz.questions = [] then (Except.error "Quiz has no questions", s)
    else
      match validateAnswersFormat answers quiz with
      | Except.error e => (Except.error e, s)
      | Except.ok _ =>
        match answers with
        | JSVal.vArr entries =>
          match processAnswers quiz entries with
          | Except.error e => (Except.error e, s)
          | Except.ok results =>
            (Except.ok ⟨calculateStatistics results quiz.questions.length, results, now⟩, s)
        | _ => (Except.error "Answers must be an array", s)

end QuizService

/-- Reachable states of the repository: the empty table, closed under the
four mutating service operations (a failing operation returns the state
unchanged, so including failures is harmless). -/
inductive Reachable : ServiceState → Prop where
  | init : Reachable []
  | create (s : ServiceState) (title : JSVal) (newId : List Char) (now : Nat) :
      Reachable s → Reachable (QuizService.createQuiz s title newId now).2
  | addQ (s : ServiceState) (quizId : JSVal) (qd : QuestionData)
      (qid : List Char) (gen : Nat → List Char) (now : Nat) :
      Reachable s → Reachable (QuizService.addQuestion s quizId qd qid gen now).2
  | delete (s : ServiceState) (quizId : JSVal) :
      Reachable s → Reachable (QuizService.deleteQuiz s quizId).2
  | updateTitle (s : ServiceState) (quizId newTitle : JSVal) (now : Nat) :
      Reachable s → Reachable (QuizService.updateQuizTitle s quizId newTitle now).2

/-! ## C10: submission never mutates the repository -/

/-- C10: `submitQuizAnswers` never mutates any state — on every path,
success or failure, the returned table (and with it every quiz's title,
questions, options and timestamps) is the table it was given. -/
theorem claim_C10_submit_preserves_state (s : ServiceState) (quizId answers : JSVal)
    (now : Nat) : (QuizService.submitQuizAnswers s quizId answers now).2 = s := by
  unfold QuizService.submitQuizAnswers
  cases QuizService.getQuiz s quizId with
  | error e => rfl
  | ok quiz =>
    dsimp only
    by_cases h : quiz.questions = []
    · rw [if_pos h]
    · rw [if_neg h]
      cases QuizService.validateAnswersFormat answers quiz with
      | error e => rfl
      | ok u =>
        dsimp only
        cases answers with
        | vArr entries =>
          dsimp only
          cases QuizService.processAnswers quiz entries with
          | error e => rfl
          | ok results => rfl
        | vUndefined => rfl
        | vNull => rfl
        | vBool b => rfl
        | vNum n => rfl
        | vStr t => rfl
        | vObj fs => rfl

/-- Witness-style instance of C10 on a successful concrete submission (the
theorem itself has no hypotheses; this records a run where submission
succeeds and the state is returned intact). -/
theorem claim_C10_submit_preserves_state_example :
    (QuizService.submitQuizAnswers
      [⟨['w'], "Math Quiz".toList, [scFixture], 0, 0⟩] (JSVal.vStr ['w'])
      (JSVal.vArr [JSVal.vObj
        [("questionId".toList, JSVal.vStr ['q', '2']),
         ("selectedOptionIds".toList, JSVal.vArr [JSVal.vStr ['e']])]]) 7).2 =
    [⟨['w'], "Math Quiz".toList, [scFixture], 0, 0⟩] :=
  claim_C10_submit_preserves_state _ _ _ _

/-! ## Trimming lemmas -/

/-- Unfolding equation of `trimRight` on a cons. -/
lemma trimRight_cons (c : Char) (rest : List Char) :
    trimRight (c :: rest) =
      if trimRight rest = [] && isJsWs c then [] else c :: trimRight rest := rfl

/-- Trimming trailing whitespace is idempotent. -/
lemma trimRight_idem (l : List Char) : trimRight (trimRight l) = trimRight l := by
  induction l with
  | nil => rfl
  | cons c rest ih =>
    rw [trimRight_cons]
    by_cases h : (trimRight rest = [] && isJsWs c) = true
    · rw [if_pos h]; rfl
    · rw [if_neg h, trimRight_cons, ih, if_neg h]

/-- Trimming trailing whitespace yields nil or keeps the head. -/
lemma trimRight_shape (c : Char) (rest : List Char) :
    trimRight (c :: rest) = [] ∨ ∃ t, trimRight (c :: rest) = c :: t := by
  rw [trimRight_cons]
  by_cases h : (trimRight rest = [] && isJsWs c) = true
  · exact Or.inl (by rw [if_pos h])
  · exact Or.inr ⟨trimRight rest, by rw [if_neg h]⟩

/-- Dropping a leading satisfying prefix is idempotent. -/
lemma dropWhile_dropWhile (p : Char → Bool) (l : List Char) :
    (l.dropWhile p).dropWhile p = l.dropWhile p := by
  induction l with
  | nil => rfl
  | cons a t ih =>
    rw [List.dropWhile_cons]
    by_cases h : p a = true
    · rw [if_pos h]; exact ih
    · rw [if_neg h, List.dropWhile_cons, if_neg h]

/-- A list with no leading whitespace keeps that property under
`trimRight`. -/
lemma dropWhile_trimRight (p : Char → Bool) (X : List Char)
    (h : X.dropWhile p = X) : (trimRight X).dropWhile p = trimRight X := by
  cases X with
  | nil => rfl
  | cons c rest =>
    have hc : p c = false := by
      have h0 := (List.dropWhile_eq_self_iff.mp h) (by simp)
      simpa using h0
    rcases trimRight_shape c rest with h0 | ⟨t, ht⟩
    · rw [h0]; rfl
    · rw [ht, List.dropWhile_cons, if_neg (by simp [hc])]

/-- Lemma for C5: `trim` is idempotent, so a stored trimmed title is its own
trim. -/
lemma jsTrim_idem (l : List Char) : jsTrim (jsTrim l) = jsTrim l := by
  unfold jsTrim
  rw [dropWhile_trimRight isJsWs (l.dropWhile isJsWs) (dropWhile_dropWhile _ _),
      trimRight_idem]

/-! ## Membership lemmas for the repository operations -/

/-- Membership after a `Map.set`: an element is an old one or the stored
quiz. -/
lemma mem_storeQuiz {s : ServiceState} {quiz q : QuizM}
    (h : q ∈ QuizService.storeQuiz s quiz) : q ∈ s ∨ q = quiz := by
  unfold QuizService.storeQuiz at h
  split at h
  · obtain ⟨x, hx, hq⟩ := List.mem_map.mp h
    by_cases hid : x.id = quiz.id
    · rw [if_pos hid] at hq
      exact Or.inr hq.symm
    · rw [if_neg hid] at hq
      exact Or.inl (hq ▸ hx)
  · rcases List.mem_append.mp h with h | h
    · exact Or.inl h
    · exact Or.inr (List.mem_singleton.mp h)

/-- Membership after an in-place update of one quiz. -/
lemma mem_replace {s : ServiceState} {id : List Char} {updated q : QuizM}
    (h : q ∈ s.map (fun x => if x.id = id then updated else x)) : q ∈ s ∨ q = updated := by
  obtain ⟨x, hx, hq⟩ := List.mem_map.mp h
  by_cases hid : x.id = id
  · rw [if_pos hid] at hq
    exact Or.inr hq.symm
  · rw [if_neg hid] at hq
    exact Or.inl (hq ▸ hx)

/-- A successful lookup returns a quiz of the table. -/
lemma getQuiz_ok_mem {s : ServiceState} {v : JSVal} {q : QuizM}
    (h : QuizService.getQuiz s v = Except.ok q) : q ∈ s := by
  unfold QuizService.getQuiz at h
  split at h
  · cases h
  · split at h
    · split at h
      · injection h with h
        exact h ▸ List.mem_of_find?_eq_some (by assumption)
      · cases h
    · cases h

/-! ## C5: the quiz-title invariant -/

/-- Counterexample to C5 as stated: the reachability invariant
"title length between 3 and 200" fails, because `updateQuizTitle` enforces
only non-emptiness and the 200-character maximum.  Creating a quiz titled
"abc" and then updating its title to "ab" reaches a state holding a
2-character title. -/
theorem claim_C5_counterexample :
    ¬ (∀ s : ServiceState, Reachable s → ∀ q ∈ s,
        jsTrim q.title = q.title ∧ 3 ≤ q.title.length ∧ q.title.length ≤ 200) := by
  intro hclaim
  have hreach : Reachable ((QuizService.updateQuizTitle
      (QuizService.createQuiz [] (JSVal.vStr "abc".toList) ['w'] 0).2
      (JSVal.vStr ['w']) (JSVal.vStr "ab".toList) 1).2) :=
    Reachable.updateTitle _ _ _ _ (Reachable.create [] _ _ _ Reachable.init)
  have hmem : (⟨['w'], ['a', 'b'], [], 0, 1⟩ : QuizM) ∈
      (QuizService.updateQuizTitle
        (QuizService.createQuiz [] (JSVal.vStr "abc".toList) ['w'] 0).2
        (JSVal.vStr ['w']) (JSVal.vStr "ab".toList) 1).2 := by
    rw [show (QuizService.updateQuizTitle
        (QuizService.createQuiz [] (JSVal.vStr "abc".toList) ['w'] 0).2
        (JSVal.vStr ['w']) (JSVal.vStr "ab".toList) 1).2 =
        [⟨['w'], ['a', 'b'], [], 0, 1⟩] from rfl]
    exact List.mem_singleton.mpr rfl
  have hlen := (hclaim _ hreach _ hmem).2.1
  have h2 : (⟨['w'], ['a', 'b'], [], 0, 1⟩ : QuizM).title.length = 2 := rfl
  omega

/-- C5 (amended): for every reachable quiz the title is trimmed, nonempty
and at most 200 characters; the 3-character minimum holds at creation but
is not preserved by `updateQuizTitle`, which only rejects empty and
over-long titles. -/
theorem claim_C5_amended_title_trimmed_bounded (s : ServiceState) (h : Reachable s) :
    ∀ q ∈ s, jsTrim q.title = q.title ∧ 1 ≤ q.title.length ∧ q.title.length ≤ 200 := by
  induction h with
  | init => intro q hq; cases hq
  | create s title newId now _ ih =>
    intro q hq
    unfold QuizService.createQuiz at hq
    split at hq
    · exact ih q hq
    · exact ih q hq
    · dsimp only at hq
      split at hq
      · exact ih q hq
      · split at hq
        · exact ih q hq
        · split at hq
          · exact ih q hq
          · rcases mem_storeQuiz hq with hmem | rfl
            · exact ih q hmem
            · rename_i t h1 h2 h3
              exact ⟨jsTrim_idem t,
                by show 1 ≤ (jsTrim t).length; omega,
                by show (jsTrim t).length ≤ 200; omega⟩
    · exact ih q hq
  | addQ s quizId qd qid gen now _ ih =>
    intro q hq
    unfold QuizService.addQuestion at hq
    split at hq
    · exact ih q hq
    · rename_i quiz hquiz
      split at hq
      · exact ih q hq
      · split at hq
        · exact ih q hq
        · dsimp only at hq
          split at hq
          · exact ih q hq
          · rcases mem_replace hq with hmem | rfl
            · exact ih q hmem
            · exact ih quiz (getQuiz_ok_mem hquiz)
  | delete s quizId _ ih =>
    intro q hq
    unfold QuizService.deleteQuiz at hq
    split at hq
    · exact ih q hq
    · split at hq
      · exact ih q (List.mem_of_mem_filter hq)
      · exact ih q hq
  | updateTitle s quizId newTitle now _ ih =>
    intro q hq
    unfold QuizService.updateQuizTitle at hq
    split at hq
    · exact ih q hq
    · rename_i quiz hquiz
      split at hq
      · rename_i t
        split at hq
        · exact ih q hq
        · dsimp only at hq
          split at hq
          · exact ih q hq
          · split at hq
            · exact ih q hq
            · rcases mem_replace hq with hmem | rfl
              · exact ih q hmem
              · exact ⟨jsTrim_idem t,
                  by show 1 ≤ (jsTrim t).length; omega,
                  by show (jsTrim t).length ≤ 200; omega⟩
      · exact ih q hq

/-- Witness for C5 (amended): the state reached by one successful creation
is reachable and satisfies the invariant. -/
theorem claim_C5_witness :
    Reachable ((QuizService.createQuiz [] (JSVal.vStr "Math Quiz".toList) ['w'] 0).2) ∧
    ∀ q ∈ (QuizService.createQuiz [] (JSVal.vStr "Math Quiz".toList) ['w'] 0).2,
      jsTrim q.title = q.title ∧ 1 ≤ q.title.length ∧ q.title.length ≤ 200 :=
  ⟨Reachable.create [] _ _ _ Reachable.init,
   claim_C5_amended_title_trimmed_bounded _ (Reachable.create [] _ _ _ Reachable.init)⟩

/-! ## C9: the answer-free projection -/

mutual

/-- No object anywhere inside the value carries the key `k`. -/
def keyAbsentV (k : List Char) : JSVal → Bool
  | JSVal.vObj fs => keyAbsentFields k fs
  | JSVal.vArr xs => keyAbsentList k xs
  | _ => true

/-- Key absence across the elements of an array. -/
def keyAbsentList (k : List Char) : List JSVal → Bool
  | [] => true
  | x :: xs => keyAbsentV k x && keyAbsentList k xs

/-- Key absence across the fields of an object. -/
def keyAbsentFields (k : List Char) : List (List Char × JSVal) → Bool
  | [] => true
  | (k₁, v) :: rest => !(k₁ = k) && keyAbsentV k v && keyAbsentFields k rest

end

/-- Keys of a JS object, in order. -/
def objKeys : JSVal → List (List Char)
  | JSVal.vObj fs => fs.map (fun kv => kv.1)
  | _ => []

/-- A public question view has exactly the four public keys. -/
lemma publicView_keys (q : QuestionM) :
    objKeys q.getPublicView =
      ["id".toList, "text".toList, "type".toList, "options".toList] := rfl

/-- Every option object inside a public view has exactly the keys id and
text. -/
lemma publicView_option_keys (q : QuestionM) :
    ∀ ovs, q.getPublicView.getField "options".toList = JSVal.vArr ovs →
      ∀ ov ∈ ovs, objKeys ov = ["id".toList, "text".toList] := by
  intro ovs h
  have hfield : q.getPublicView.getField "options".toList =
      JSVal.vArr (q.options.map (fun o =>
        JSVal.vObj [("id".toList, JSVal.vStr o.id), ("text".toList, JSVal.vStr o.text)])) := rfl
  rw [hfield] at h
  injection h with h
  subst h
  intro ov hov
  obtain ⟨o, _, rfl⟩ := List.mem_map.mp hov
  rfl

/-- The option objects of a public view never carry isCorrect. -/
lemma keyAbsentList_publicOptions (opts : List OptionM) :
    keyAbsentList "isCorrect".toList (opts.map (fun o =>
      JSVal.vObj [("id".toList, JSVal.vStr o.id), ("text".toList, JSVal.vStr o.text)])) = true := by
  induction opts with
  | nil => rfl
  | cons o rest ih =>
    show (keyAbsentV "isCorrect".toList
        (JSVal.vObj [("id".toList, JSVal.vStr o.id), ("text".toList, JSVal.vStr o.text)]) &&
      keyAbsentList "isCorrect".toList (rest.map _)) = true
    rw [ih]
    rfl

/-- The key isCorrect is absent everywhere in a public question view. -/
lemma publicView_keyAbsent (q : QuestionM) :
    keyAbsentV "isCorrect".toList q.getPublicView = true := by
  show (!("id".toList = "isCorrect".toList) && true &&
    (!("text".toList = "isCorrect".toList) && true &&
      (!("type".toList = "isCorrect".toList) && true &&
        (!("options".toList = "isCorrect".toList) &&
          keyAbsentList "isCorrect".toList (q.options.map (fun o =>
            JSVal.vObj [("id".toList, JSVal.vStr o.id), ("text".toList, JSVal.vStr o.text)])) &&
          true)))) = true
  rw [keyAbsentList_publicOptions]
  rfl

/-- C9: after a successful `addQuestion`, every question read back through
the answer-free projection exposes exactly the keys id, text, type and
options, each option view exposes exactly id and text, and the isCorrect
flag occurs nowhere in the projection. -/
theorem claim_C9_projection_never_exposes_isCorrect
    (s : ServiceState) (quizId : JSVal) (qd : QuestionData) (qid : List Char)
    (gen : Nat → List Char) (now : Nat) (question : QuestionM)
    (_hok : (QuizService.addQuestion s quizId qd qid gen now).1 = Except.ok question) :
    ∀ quiz ∈ (QuizService.addQuestion s quizId qd qid gen now).2,
      ∀ v ∈ quiz.getQuestionsWithoutAnswers,
        objKeys v = ["id".toList, "text".toList, "type".toList, "options".toList] ∧
        (∀ ovs, v.getField "options".toList = JSVal.vArr ovs →
          ∀ ov ∈ ovs, objKeys ov = ["id".toList, "text".toList]) ∧
        keyAbsentV "isCorrect".toList v = true := by
  intro quiz _ v hv
  obtain ⟨qq, _, rfl⟩ := List.mem_map.mp hv
  exact ⟨publicView_keys qq, publicView_option_keys qq, publicView_keyAbsent qq⟩

/-- Fresh-id generator used by concrete witnesses. -/
def wGen : Nat → List Char := fun n => List.replicate (n + 1) 'o'

/-- Concrete add-question payload used by witnesses. -/
def wQD : QuestionData :=
  ⟨"What is 2+2?".toList, singleChoiceT, [⟨"3".toList, false⟩, ⟨"4".toList, true⟩]⟩

/-- Concrete one-quiz state used by witnesses. -/
def wState : ServiceState := [⟨['w'], "Math Quiz".toList, [], 0, 0⟩]

/-- Witness for C9: a concrete successful addQuestion run, with the
projection guarantees instantiated there. -/
theorem claim_C9_witness :
    (QuizService.addQuestion wState (JSVal.vStr ['w']) wQD ['n'] wGen 5).1 =
      Except.ok ⟨['n'], "What is 2+2?".toList, singleChoiceT,
        [⟨['o'], "3".toList, false⟩, ⟨['o', 'o'], "4".toList, true⟩], 5⟩ ∧
    ∀ quiz ∈ (QuizService.addQuestion wState (JSVal.vStr ['w']) wQD ['n'] wGen 5).2,
      ∀ v ∈ quiz.getQuestionsWithoutAnswers,
        objKeys v = ["id".toList, "text".toList, "type".toList, "options".toList] ∧
        (∀ ovs, v.getField "options".toList = JSVal.vArr ovs →
          ∀ ov ∈ ovs, objKeys ov = ["id".toList, "text".toList]) ∧
        keyAbsentV "isCorrect".toList v = true :=
  ⟨rfl, claim_C9_projection_never_exposes_isCorrect _ _ _ _ _ _ _ rfl⟩

/-! ## C4: statistics and grading -/

/-- A passing envelope check pins the entry count: nonempty and at most the
question count. -/
lemma validateAnswersFormat_ok_length (entries : List JSVal) (quiz : QuizM)
    (h : QuizService.validateAnswersFormat (JSVal.vArr entries) quiz = Except.ok ()) :
    entries.length ≠ 0 ∧ entries.length ≤ quiz.questions.length := by
  unfold QuizService.validateAnswersFormat at h
  dsimp only at h
  by_cases h1 : entries.length = 0
  · rw [if_pos h1] at h; cases h
  · rw [if_neg h1] at h
    by_cases h2 : quiz.questions.length < entries.length
    · rw [if_pos h2] at h; cases h
    · exact ⟨h1, le_of_not_lt h2⟩

/-- Successful processing yields one result entry per answer entry. -/
lemma processAnswers_ok_length (quiz : QuizM) (l : List JSVal)
    (results : List QuizService.ResultEntry)
    (h : QuizService.processAnswers quiz l = Except.ok results) :
    results.length = l.length := by
  induction l generalizing results with
  | nil =>
    unfold QuizService.processAnswers at h
    injection h with h
    rw [← h]
    rfl
  | cons a rest ih =>
    unfold QuizService.processAnswers at h
    dsimp only at h
    cases hfind : List.find? (fun q => (a.getField "questionId".toList).eqStr q.id)
        quiz.questions with
    | none => rw [hfind] at h; cases h
    | some question =>
      rw [hfind] at h
      dsimp only at h
      cases hsel : a.getField "selectedOptionIds".toList with
      | vArr sel =>
        rw [hsel] at h
        dsimp only at h
        cases hchk : QuizService.checkOptionIdsExist question sel with
        | error e => rw [hchk] at h; cases h
        | ok v =>
          rw [hchk] at h
          dsimp only at h
          cases hrec : QuizService.processAnswers quiz rest with
          | error e => rw [hrec] at h; cases h
          | ok rest' =>
            rw [hrec] at h
            dsimp only at h
            injection h with h
            rw [← h]
            simp [ih rest' hrec]
      | vUndefined => rw [hsel] at h; cases h
      | vNull => rw [hsel] at h; cases h
      | vBool b => rw [hsel] at h; cases h
      | vNum n => rw [hsel] at h; cases h
      | vStr t => rw [hsel] at h; cases h
      | vObj fs => rw [hsel] at h; cases h

lemma log2Fuel_spec : ∀ (fuel n : Nat), n ≤ fuel → 1 ≤ n →
    2 ^ QuizService.log2Fuel fuel n ≤ n ∧ n < 2 ^ (QuizService.log2Fuel fuel n + 1) := by
  intro fuel
  induction fuel with
  | zero => intro n h1 h2; exact absurd h1 (by omega)
  | succ f ih =>
    intro n hle h1
    unfold QuizService.log2Fuel
    by_cases hn : n ≤ 1
    · have hn1 : n = 1 := by omega
      subst hn1
      rw [if_pos hn]
      norm_num
    · rw [if_neg hn]
      obtain ⟨hlo, hhi⟩ := ih (n / 2) (by omega) (by omega)
      constructor
      · rw [pow_succ]
        omega
      · rw [pow_succ]
        omega

lemma two_pow_nlog2_le {n : Nat} (h : 1 ≤ n) : 2 ^ QuizService.nlog2 n ≤ n :=
  (log2Fuel_spec n n le_rfl h).1

lemma lt_two_pow_nlog2 {n : Nat} (h : 1 ≤ n) : n < 2 ^ (QuizService.nlog2 n + 1) :=
  (log2Fuel_spec n n le_rfl h).2

lemma le_two_pow_nclog2 (x : Nat) : x ≤ 2 ^ QuizService.nclog2 x := by
  unfold QuizService.nclog2
  by_cases h : x ≤ 1
  · rw [if_pos h]
    simpa using h
  · rw [if_neg h]
    have := lt_two_pow_nlog2 (n := x - 1) (by omega)
    omega

lemma rneNat_le_halfUp (n d : Nat) (hd : 0 < d) :
    QuizService.rneNat n d ≤ (2 * n + d) / (2 * d) := by
  have hqr : d * (n / d) + n % d = n := Nat.div_add_mod n d
  have hr : n % d < d := Nat.mod_lt n hd
  unfold QuizService.rneNat
  dsimp only
  split_ifs with h1 h2 h3
  · rw [Nat.le_div_iff_mul_le (by omega : 0 < 2 * d),
      show (n / d) * (2 * d) = 2 * (d * (n / d)) by ring]
    omega
  · rw [Nat.le_div_iff_mul_le (by omega : 0 < 2 * d),
      show (n / d + 1) * (2 * d) = 2 * (d * (n / d)) + 2 * d by ring]
    omega
  · rw [Nat.le_div_iff_mul_le (by omega : 0 < 2 * d),
      show (n / d) * (2 * d) = 2 * (d * (n / d)) by ring]
    omega
  · rw [Nat.le_div_iff_mul_le (by omega : 0 < 2 * d),
      show (n / d + 1) * (2 * d) = 2 * (d * (n / d)) + 2 * d by ring]
    omega

lemma rneNat_le_q (n d : Nat) (hd : 0 < d) :
    (QuizService.rneNat n d : ℚ) ≤ (n : ℚ) / d + 1 / 2 := by
  have h1 := rneNat_le_halfUp n d hd
  have h2 : (((2 * n + d) / (2 * d) : Nat) : ℚ) ≤
      ((2 * n + d : Nat) : ℚ) / ((2 * d : Nat) : ℚ) := Nat.cast_div_le
  have hd0 : (0 : ℚ) < d := by exact_mod_cast hd
  have h3 : ((2 * n + d : Nat) : ℚ) / ((2 * d : Nat) : ℚ) = (n : ℚ) / d + 1 / 2 := by
    push_cast
    field_simp
    ring
  calc (QuizService.rneNat n d : ℚ)
      ≤ (((2 * n + d) / (2 * d) : Nat) : ℚ) := by exact_mod_cast h1
    _ ≤ ((2 * n + d : Nat) : ℚ) / ((2 * d : Nat) : ℚ) := h2
    _ = (n : ℚ) / d + 1 / 2 := h3

/-- Rational value of a dyadic mantissa-exponent pair. -/
def dyVal (m : Nat) (e : Int) : ℚ := (m : ℚ) * (2 : ℚ) ^ e

lemma dyVal_nonneg (m : Nat) (e : Int) : 0 ≤ dyVal m e := by
  unfold dyVal
  positivity

lemma fl64Div_val_le (s t : Nat) (hs : 0 < s) (ht : 0 < t) :
    dyVal (QuizService.fl64Div s t).1 (QuizService.fl64Div s t).2 ≤
      (s : ℚ) / t * (1 + 1 / 2 ^ 53) := by
  have ht0 : (0 : ℚ) < (t : ℚ) := by exact_mod_cast ht
  unfold QuizService.fl64Div
  rw [if_neg (by omega)]
  dsimp only
  set L : ℤ := if t ≤ s then ((QuizService.nlog2 (s / t) : Nat) : Int)
    else -((QuizService.nclog2 ((t + s - 1) / s) : Nat) : Int) with hLdef
  have hL : (2 : ℚ) ^ L ≤ (s : ℚ) / t := by
    rw [hLdef]
    by_cases hts : t ≤ s
    · rw [if_pos hts, zpow_natCast]
      have h1 : 2 ^ QuizService.nlog2 (s / t) ≤ s / t :=
        two_pow_nlog2_le ((Nat.one_le_div_iff ht).mpr hts)
      calc ((2 : ℚ)) ^ QuizService.nlog2 (s / t) ≤ ((s / t : Nat) : ℚ) := by exact_mod_cast h1
        _ ≤ (s : ℚ) / t := Nat.cast_div_le
    · rw [if_neg hts]
      have h1 : (t + s - 1) / s ≤ 2 ^ QuizService.nclog2 ((t + s - 1) / s) :=
        le_two_pow_nclog2 _
      have h2 : t ≤ s * ((t + s - 1) / s) := by
        have hdm := Nat.div_add_mod (t + s - 1) s
        have hmd : (t + s - 1) % s < s := Nat.mod_lt _ hs
        omega
      have h3 : t ≤ s * 2 ^ QuizService.nclog2 ((t + s - 1) / s) :=
        le_trans h2 (Nat.mul_le_mul_left s h1)
      rw [zpow_neg, zpow_natCast, inv_eq_one_div,
        div_le_div_iff₀ (by positivity) ht0]
      have h4 : (t : ℚ) ≤ (s : ℚ) * (2 : ℚ) ^ QuizService.nclog2 ((t + s - 1) / s) := by
        exact_mod_cast h3
      linarith
  clear_value L
  cases hE : L - 52 with
  | ofNat k =>
    dsimp only
    unfold dyVal
    have hLk : L = (k : ℤ) + 52 := by
      rw [sub_eq_iff_eq_add.mp hE]
      simp [Int.ofNat_eq_natCast]
    have hd : 0 < t * 2 ^ k := by positivity
    have hrne := rneNat_le_q s (t * 2 ^ k) hd
    have hpk : (0 : ℚ) < (2 : ℚ) ^ (k : ℕ) := by positivity
    have hcast : ((t * 2 ^ k : Nat) : ℚ) = (t : ℚ) * (2 : ℚ) ^ (k : ℕ) := by push_cast; ring
    have hofNat : ((2 : ℚ) ^ (Int.ofNat k)) = (2 : ℚ) ^ (k : ℕ) := zpow_natCast 2 k
    have hpow : (2 : ℚ) ^ (k : ℕ) * 2 ^ 52 ≤ (s : ℚ) / t := by
      have hh := hL
      rw [hLk, zpow_add₀ (by norm_num : (2 : ℚ) ≠ 0), zpow_natCast,
        show ((2 : ℚ) ^ (52 : ℤ)) = (2 : ℚ) ^ (52 : ℕ) from by norm_num] at hh
      exact hh
    have hval : (QuizService.rneNat s (t * 2 ^ k) : ℚ) * (2 : ℚ) ^ (k : ℕ) ≤
        (s : ℚ) / t + (2 : ℚ) ^ (k : ℕ) / 2 := by
      have step := mul_le_mul_of_nonneg_right hrne (le_of_lt hpk)
      rw [hcast] at step
      calc (QuizService.rneNat s (t * 2 ^ k) : ℚ) * (2 : ℚ) ^ (k : ℕ)
          ≤ ((s : ℚ) / ((t : ℚ) * (2 : ℚ) ^ (k : ℕ)) + 1 / 2) * (2 : ℚ) ^ (k : ℕ) := step
        _ = (s : ℚ) / t + (2 : ℚ) ^ (k : ℕ) / 2 := by field_simp; ring
    rw [hofNat]
    have hhalf : (2 : ℚ) ^ (k : ℕ) / 2 ≤ ((s : ℚ) / t) / 2 ^ 53 := by
      rw [div_le_div_iff₀ (by norm_num) (by norm_num)]
      have hpow2 : 2 * ((2 : ℚ) ^ (k : ℕ) * 2 ^ 52) ≤ 2 * ((s : ℚ) / t) :=
        mul_le_mul_of_nonneg_left hpow (by norm_num)
      calc (2 : ℚ) ^ (k : ℕ) * 2 ^ 53 = 2 * ((2 : ℚ) ^ (k : ℕ) * 2 ^ 52) := by
            rw [show (2 : ℚ) ^ (53 : ℕ) = 2 * 2 ^ (52 : ℕ) from by norm_num]; ring
        _ ≤ 2 * ((s : ℚ) / t) := hpow2
        _ = (s : ℚ) / t * 2 := by ring
    calc (QuizService.rneNat s (t * 2 ^ k) : ℚ) * (2 : ℚ) ^ (k : ℕ)
        ≤ (s : ℚ) / t + (2 : ℚ) ^ (k : ℕ) / 2 := hval
      _ ≤ (s : ℚ) / t + ((s : ℚ) / t) / 2 ^ 53 := by linarith [hhalf]
      _ = (s : ℚ) / t * (1 + 1 / 2 ^ 53) := by ring
  | negSucc k =>
    dsimp only
    unfold dyVal
    rw [Int.negSucc_eq] at hE
    have hLk : L = 52 - ((k : ℤ) + 1) := by
      rw [sub_eq_iff_eq_add.mp hE]
      ring
    have ha : (0 : ℚ) < (2 : ℚ) ^ (k + 1 : ℕ) := by positivity
    have hrne := rneNat_le_q (s * 2 ^ (k + 1)) t ht
    have hcast : ((s * 2 ^ (k + 1) : Nat) : ℚ) = (s : ℚ) * (2 : ℚ) ^ (k + 1 : ℕ) := by
      push_cast; ring
    have hzneg : (2 : ℚ) ^ (Int.negSucc k) = ((2 : ℚ) ^ (k + 1 : ℕ))⁻¹ := zpow_negSucc 2 k
    have hpow : (2 : ℚ) ^ (52 : ℕ) / (2 : ℚ) ^ (k + 1 : ℕ) ≤ (s : ℚ) / t := by
      have hh := hL
      rw [hLk, zpow_sub₀ (by norm_num : (2 : ℚ) ≠ 0),
        show ((2 : ℚ) ^ (52 : ℤ)) = (2 : ℚ) ^ (52 : ℕ) from by norm_num,
        show ((2 : ℚ) ^ ((k : ℤ) + 1)) = (2 : ℚ) ^ (k + 1 : ℕ) from by
          rw [show ((k : ℤ) + 1) = ((k + 1 : ℕ) : ℤ) from by push_cast; ring, zpow_natCast]] at hh
      exact hh
    have hval : (QuizService.rneNat (s * 2 ^ (k + 1)) t : ℚ) * ((2 : ℚ) ^ (k + 1 : ℕ))⁻¹ ≤
        (s : ℚ) / t + ((2 : ℚ) ^ (k + 1 : ℕ))⁻¹ / 2 := by
      have step := mul_le_mul_of_nonneg_right hrne (le_of_lt (inv_pos.mpr ha))
      rw [hcast] at step
      calc (QuizService.rneNat (s * 2 ^ (k + 1)) t : ℚ) * ((2 : ℚ) ^ (k + 1 : ℕ))⁻¹
          ≤ ((s : ℚ) * (2 : ℚ) ^ (k + 1 : ℕ) / t + 1 / 2) * ((2 : ℚ) ^ (k + 1 : ℕ))⁻¹ := step
        _ = (s : ℚ) / t + ((2 : ℚ) ^ (k + 1 : ℕ))⁻¹ / 2 := by field_simp; ring
    rw [hzneg]
    have hhalf : ((2 : ℚ) ^ (k + 1 : ℕ))⁻¹ / 2 ≤ ((s : ℚ) / t) / 2 ^ 53 := by
      rw [div_le_div_iff₀ (by norm_num) (by norm_num)]
      -- goal: (2^(k+1))⁻¹ * 2^53 ≤ (s/t) * 2
      have h52 : (2 : ℚ) ^ (52 : ℕ) ≤ ((s : ℚ) / t) * (2 : ℚ) ^ (k + 1 : ℕ) := by
        rw [div_le_iff₀ ha] at hpow
        linarith
      have hinv : ((2 : ℚ) ^ (k + 1 : ℕ))⁻¹ * 2 ^ 53 =
          2 ^ 53 / (2 : ℚ) ^ (k + 1 : ℕ) := by ring
      rw [hinv, div_le_iff₀ ha]
      calc (2 : ℚ) ^ (53 : ℕ) = 2 * 2 ^ (52 : ℕ) := by norm_num
        _ ≤ 2 * (((s : ℚ) / t) * (2 : ℚ) ^ (k + 1 : ℕ)) := by linarith
        _ = (s : ℚ) / t * 2 * (2 : ℚ) ^ (k + 1 : ℕ) := by ring
    calc (QuizService.rneNat (s * 2 ^ (k + 1)) t : ℚ) * ((2 : ℚ) ^ (k + 1 : ℕ))⁻¹
        ≤ (s : ℚ) / t + ((2 : ℚ) ^ (k + 1 : ℕ))⁻¹ / 2 := hval
      _ ≤ (s : ℚ) / t + ((s : ℚ) / t) / 2 ^ 53 := by linarith [hhalf]
      _ = (s : ℚ) / t * (1 + 1 / 2 ^ 53) := by ring

lemma fl64Mant_val_le (M : Nat) (e : Int) :
    dyVal (QuizService.fl64Mant M e).1 (QuizService.fl64Mant M e).2 ≤
      dyVal M e * (1 + 1 / 2 ^ 53) := by
  unfold QuizService.fl64Mant
  by_cases hM : M < 2 ^ 53
  · rw [if_pos hM]
    have h0 := dyVal_nonneg M e
    nlinarith [h0]
  · rw [if_neg hM]
    dsimp only
    have h53 : (2 : ℕ) ^ 53 = 9007199254740992 := by norm_num
    have hM1 : 1 ≤ M := by omega
    have hspec1 : 2 ^ QuizService.nlog2 M ≤ M := two_pow_nlog2_le hM1
    have hspec2 : M < 2 ^ (QuizService.nlog2 M + 1) := lt_two_pow_nlog2 hM1
    have hl53 : 53 ≤ QuizService.nlog2 M := by
      by_contra hcon
      push_neg at hcon
      have hle : 2 ^ (QuizService.nlog2 M + 1) ≤ 2 ^ 53 :=
        Nat.pow_le_pow_right (by norm_num) (by omega)
      omega
    have hd : 0 < 2 ^ (QuizService.nlog2 M - 52) := pow_pos (by norm_num) _
    have hrne := rneNat_le_q M (2 ^ (QuizService.nlog2 M - 52)) hd
    unfold dyVal
    have hP : (0 : ℚ) < (2 : ℚ) ^ e := by positivity
    have ha : (0 : ℚ) < (2 : ℚ) ^ (QuizService.nlog2 M - 52 : ℕ) := by positivity
    have hcast : ((2 ^ (QuizService.nlog2 M - 52) : Nat) : ℚ) =
        (2 : ℚ) ^ (QuizService.nlog2 M - 52 : ℕ) := by push_cast; rfl
    have hzsplit : (2 : ℚ) ^ (e + ((QuizService.nlog2 M - 52 : ℕ) : ℤ)) =
        (2 : ℚ) ^ e * (2 : ℚ) ^ (QuizService.nlog2 M - 52 : ℕ) := by
      rw [zpow_add₀ (by norm_num : (2 : ℚ) ≠ 0), zpow_natCast]
    have hpowM : (2 : ℚ) ^ (QuizService.nlog2 M - 52 : ℕ) * 2 ^ 52 ≤ (M : ℚ) := by
      have hnat : 2 ^ (QuizService.nlog2 M - 52) * 2 ^ 52 ≤ M := by
        rw [← pow_add, show QuizService.nlog2 M - 52 + 52 = QuizService.nlog2 M from by omega]
        exact hspec1
      exact_mod_cast hnat
    rw [hcast] at hrne
    have hhalf : (2 : ℚ) ^ (QuizService.nlog2 M - 52 : ℕ) / 2 ≤ (M : ℚ) / 2 ^ 53 := by
      rw [div_le_div_iff₀ (by norm_num) (by norm_num)]
      have h2 := mul_le_mul_of_nonneg_left hpowM (by norm_num : (0 : ℚ) ≤ 2)
      calc (2 : ℚ) ^ (QuizService.nlog2 M - 52 : ℕ) * 2 ^ 53
          = 2 * ((2 : ℚ) ^ (QuizService.nlog2 M - 52 : ℕ) * 2 ^ 52) := by
            rw [show (2 : ℚ) ^ (53 : ℕ) = 2 * 2 ^ (52 : ℕ) from by norm_num]; ring
        _ ≤ 2 * (M : ℚ) := h2
        _ = (M : ℚ) * 2 := by ring
    rw [hzsplit]
    calc (QuizService.rneNat M (2 ^ (QuizService.nlog2 M - 52)) : ℚ) *
          ((2 : ℚ) ^ e * (2 : ℚ) ^ (QuizService.nlog2 M - 52 : ℕ))
        ≤ ((M : ℚ) / (2 : ℚ) ^ (QuizService.nlog2 M - 52 : ℕ) + 1 / 2) *
          ((2 : ℚ) ^ e * (2 : ℚ) ^ (QuizService.nlog2 M - 52 : ℕ)) :=
          mul_le_mul_of_nonneg_right hrne (by positivity)
      _ = (M : ℚ) * (2 : ℚ) ^ e +
          ((2 : ℚ) ^ (QuizService.nlog2 M - 52 : ℕ) / 2) * (2 : ℚ) ^ e := by
          field_simp
          ring
      _ ≤ (M : ℚ) * (2 : ℚ) ^ e + ((M : ℚ) / 2 ^ 53) * (2 : ℚ) ^ e := by
          have := mul_le_mul_of_nonneg_right hhalf (le_of_lt hP)
          linarith
      _ = (M : ℚ) * (2 : ℚ) ^ e * (1 + 1 / 2 ^ 53) := by ring

lemma mathRoundDyadic_le_100 (m : Nat) (e : Int) (h : dyVal m e < 100 + 1 / 2) :
    QuizService.mathRoundDyadic m e ≤ 100 := by
  unfold QuizService.mathRoundDyadic
  cases e with
  | ofNat k =>
    dsimp only
    have hval : dyVal m (Int.ofNat k) = ((m * 2 ^ k : Nat) : ℚ) := by
      unfold dyVal
      rw [show ((2 : ℚ) ^ (Int.ofNat k)) = (2 : ℚ) ^ (k : ℕ) from zpow_natCast 2 k]
      push_cast
      ring
    rw [hval] at h
    have hlt : ((m * 2 ^ k : Nat) : ℚ) < 101 := h.trans (by norm_num)
    have : m * 2 ^ k < 101 := by exact_mod_cast hlt
    omega
  | negSucc k =>
    dsimp only
    have hval : dyVal m (Int.negSucc k) = (m : ℚ) / (2 : ℚ) ^ (k + 1 : ℕ) := by
      unfold dyVal
      rw [zpow_negSucc, ← div_eq_mul_inv]
    rw [hval] at h
    have ha : (0 : ℚ) < (2 : ℚ) ^ (k + 1 : ℕ) := by positivity
    have h2 : (m : ℚ) < (100 + 1 / 2) * (2 : ℚ) ^ (k + 1 : ℕ) := by
      rw [div_lt_iff₀ ha] at h
      exact h
    have h3 : (m : ℚ) < ((201 * 2 ^ k : Nat) : ℚ) := by
      push_cast
      calc (m : ℚ) < (100 + 1 / 2) * (2 : ℚ) ^ (k + 1 : ℕ) := h2
        _ = 201 * (2 : ℚ) ^ (k : ℕ) := by ring
    have h4 : m < 201 * 2 ^ k := by exact_mod_cast h3
    have hp2 : (0 : ℕ) < 2 ^ (k + 2) := pow_pos (by norm_num) _
    have hdiv : (2 * m + 2 ^ (k + 1)) / 2 ^ (k + 2) < 101 := by
      rw [Nat.div_lt_iff_lt_mul hp2]
      have e1 : (2 : ℕ) ^ (k + 1) = 2 * 2 ^ k := by ring
      have e2 : (2 : ℕ) ^ (k + 2) = 4 * 2 ^ k := by ring
      omega
    omega

lemma percentageJS_le_100 (s t : Nat) (hst : s ≤ t) (ht : 0 < t) :
    QuizService.percentageJS s t ≤ 100 := by
  unfold QuizService.percentageJS
  dsimp only
  by_cases hs : s = 0
  · subst hs
    simp [QuizService.fl64Div, QuizService.fl64Mant, QuizService.mathRoundDyadic]
  · apply mathRoundDyadic_le_100
    have hs' : 0 < s := Nat.pos_of_ne_zero hs
    have h1 := fl64Div_val_le s t hs' ht
    have hq1 : dyVal (QuizService.fl64Div s t).1 (QuizService.fl64Div s t).2 ≤
        1 + 1 / 2 ^ 53 := by
      have hle1 : (s : ℚ) / t ≤ 1 := by
        rw [div_le_one (by exact_mod_cast ht : (0 : ℚ) < (t : ℚ))]
        exact_mod_cast hst
      nlinarith [h1, hle1]
    have h2 := fl64Mant_val_le ((QuizService.fl64Div s t).1 * 100) (QuizService.fl64Div s t).2
    have hv100 : dyVal ((QuizService.fl64Div s t).1 * 100) (QuizService.fl64Div s t).2 =
        dyVal (QuizService.fl64Div s t).1 (QuizService.fl64Div s t).2 * 100 := by
      unfold dyVal
      push_cast
      ring
    have h0 := dyVal_nonneg (QuizService.fl64Div s t).1 (QuizService.fl64Div s t).2
    calc dyVal (QuizService.fl64Mant ((QuizService.fl64Div s t).1 * 100)
            (QuizService.fl64Div s t).2).1
          (QuizService.fl64Mant ((QuizService.fl64Div s t).1 * 100)
            (QuizService.fl64Div s t).2).2
        ≤ dyVal ((QuizService.fl64Div s t).1 * 100) (QuizService.fl64Div s t).2 *
            (1 + 1 / 2 ^ 53) := h2
      _ = dyVal (QuizService.fl64Div s t).1 (QuizService.fl64Div s t).2 *
            (100 * (1 + 1 / 2 ^ 53)) := by rw [hv100]; ring
      _ ≤ (1 + 1 / 2 ^ 53) * (100 * (1 + 1 / 2 ^ 53)) := by nlinarith [hq1, h0]
      _ < 100 + 1 / 2 := by norm_num


/-- Grade thresholds, as an exhaustive characterisation of
`calculateGrade`. -/
lemma calculateGrade_iffs (p : Nat) :
    (QuizService.calculateGrade p = "A" ↔ 90 ≤ p) ∧
    (QuizService.calculateGrade p = "B" ↔ 80 ≤ p ∧ p < 90) ∧
    (QuizService.calculateGrade p = "C" ↔ 70 ≤ p ∧ p < 80) ∧
    (QuizService.calculateGrade p = "D" ↔ 60 ≤ p ∧ p < 70) ∧
    (QuizService.calculateGrade p = "F" ↔ p < 60) := by
  unfold QuizService.calculateGrade
  split_ifs with h1 h2 h3 h4 <;>
    refine ⟨?_, ?_, ?_, ?_, ?_⟩ <;>
    first
      | exact iff_of_true rfl (by omega)
      | exact iff_of_false (by decide) (by omega)

/-- C4 (amended): every accepted submission's result satisfies the
aggregate contract — score counts the correct per-question results, total
is the quiz's question count, percentage is Math.round of the
binary64 evaluation of (score/total)·100 (which can differ by one from
exact half-up rounding of the rational, see the counterexample) and lies
in [0,100], answeredCount is the number of submitted entries,
unansweredCount the difference, passed holds iff the percentage is at
least 60, and the letter grade follows the 90/80/70/60 thresholds. -/
theorem claim_C4_statistics_contract (s : ServiceState) (quizId : JSVal)
    (entries : List JSVal) (now : Nat) (res : QuizService.SubmitResult) (quiz : QuizM)
    (hquiz : QuizService.getQuiz s quizId = Except.ok quiz)
    (hok : (QuizService.submitQuizAnswers s quizId (JSVal.vArr entries) now).1 =
      Except.ok res) :
    res.stats.score = (res.results.filter (fun r => r.isCorrect)).length ∧
    res.stats.total = quiz.questions.length ∧
    res.stats.percentage =
      QuizService.percentageJS res.stats.score quiz.questions.length ∧
    res.stats.percentage ≤ 100 ∧
    res.stats.answeredCount = entries.length ∧
    res.stats.unansweredCount = (quiz.questions.length : Int) - entries.length ∧
    (res.stats.passed = true ↔ 60 ≤ res.stats.percentage) ∧
    (res.stats.grade = "A" ↔ 90 ≤ res.stats.percentage) ∧
    (res.stats.grade = "B" ↔ 80 ≤ res.stats.percentage ∧ res.stats.percentage < 90) ∧
    (res.stats.grade = "C" ↔ 70 ≤ res.stats.percentage ∧ res.stats.percentage < 80) ∧
    (res.stats.grade = "D" ↔ 60 ≤ res.stats.percentage ∧ res.stats.percentage < 70) ∧
    (res.stats.grade = "F" ↔ res.stats.percentage < 60) := by
  unfold QuizService.submitQuizAnswers at hok
  rw [hquiz] at hok
  dsimp only at hok
  by_cases hq0 : quiz.questions = []
  · rw [if_pos hq0] at hok; cases hok
  · rw [if_neg hq0] at hok
    cases hval : QuizService.validateAnswersFormat (JSVal.vArr entries) quiz with
    | error e => rw [hval] at hok; cases hok
    | ok u =>
      rw [hval] at hok
      dsimp only at hok
      cases hproc : QuizService.processAnswers quiz entries with
      | error e => rw [hproc] at hok; cases hok
      | ok results =>
        rw [hproc] at hok
        dsimp only at hok
        injection hok with hok
        subst hok
        have hlen := processAnswers_ok_length quiz entries results hproc
        have henv := validateAnswersFormat_ok_length entries quiz hval
        have hpos : 0 < quiz.questions.length := List.length_pos.mpr hq0
        have hscore : ((results.filter (fun r => r.isCorrect)).length) ≤
            quiz.questions.length :=
          le_trans (le_trans (List.length_filter_le _ _) (le_of_eq hlen)) henv.2
        have hgr := calculateGrade_iffs
          (if 0 < quiz.questions.length then
            QuizService.percentageJS ((results.filter (fun r => r.isCorrect)).length)
              quiz.questions.length
          else 0)
        refine ⟨rfl, rfl, ?_, ?_, hlen,
          congrArg (fun n : Nat => (quiz.questions.length : Int) - (n : Int)) hlen,
          decide_eq_true_iff, hgr.1, hgr.2.1, hgr.2.2.1, hgr.2.2.2.1, hgr.2.2.2.2⟩
        · show (if 0 < quiz.questions.length then
              QuizService.percentageJS ((results.filter (fun r => r.isCorrect)).length)
                quiz.questions.length
            else 0) =
            QuizService.percentageJS ((results.filter (fun r => r.isCorrect)).length)
              quiz.questions.length
          rw [if_pos hpos]
        · show (if 0 < quiz.questions.length then
              QuizService.percentageJS ((results.filter (fun r => r.isCorrect)).length)
                quiz.questions.length
            else 0) ≤ 100
          rw [if_pos hpos]
          exact percentageJS_le_100 _ _ hscore hpos

/-- Concrete one-question quiz used by submission witnesses. -/
def wQuizFull : QuizM := ⟨['w'], "Math Quiz".toList, [scFixture], 0, 0⟩

/-- Concrete submission payload: the one question answered correctly. -/
def wAnswers : List JSVal :=
  [JSVal.vObj
    [("questionId".toList, JSVal.vStr ['q', '2']),
     ("selectedOptionIds".toList, JSVal.vArr [JSVal.vStr ['e']])]]

/-- The result the engine computes for `wAnswers` against `wQuizFull`. -/
def wRes : QuizService.SubmitResult :=
  ⟨⟨1, 1, 100, 1, 0, true, "A"⟩,
   [⟨JSVal.vStr ['q', '2'], "What is 2+2?".toList, singleChoiceT,
     JSVal.vArr [JSVal.vStr ['e']], [['e']], true,
     [(['e'], "4".toList)], [(['e'], "4".toList)]⟩], 7⟩

/-- Witness for C4: a concrete accepted submission, with the aggregate
contract instantiated on its computed result. -/
theorem claim_C4_witness :
    QuizService.getQuiz [wQuizFull] (JSVal.vStr ['w']) = Except.ok wQuizFull ∧
    (QuizService.submitQuizAnswers [wQuizFull] (JSVal.vStr ['w'])
      (JSVal.vArr wAnswers) 7).1 = Except.ok wRes ∧
    (wRes.stats.score = (wRes.results.filter (fun r => r.isCorrect)).length ∧
     wRes.stats.total = wQuizFull.questions.length ∧
     wRes.stats.percentage =
       QuizService.percentageJS wRes.stats.score wQuizFull.questions.length ∧
     wRes.stats.percentage ≤ 100 ∧
     wRes.stats.answeredCount = wAnswers.length ∧
     wRes.stats.unansweredCount = (wQuizFull.questions.length : Int) - wAnswers.length ∧
     (wRes.stats.passed = true ↔ 60 ≤ wRes.stats.percentage) ∧
     (wRes.stats.grade = "A" ↔ 90 ≤ wRes.stats.percentage) ∧
     (wRes.stats.grade = "B" ↔ 80 ≤ wRes.stats.percentage ∧ wRes.stats.percentage < 90) ∧
     (wRes.stats.grade = "C" ↔ 70 ≤ wRes.stats.percentage ∧ wRes.stats.percentage < 80) ∧
     (wRes.stats.grade = "D" ↔ 60 ≤ wRes.stats.percentage ∧ wRes.stats.percentage < 70) ∧
     (wRes.stats.grade = "F" ↔ wRes.stats.percentage < 60)) :=
  ⟨rfl, rfl, claim_C4_statistics_contract [wQuizFull] (JSVal.vStr ['w']) wAnswers 7
    wRes wQuizFull rfl rfl⟩


/-- Exact half-up rounding of num/den over the rationals — the claim's
reading of round(score/total × 100), modelled from the spec's words for
comparison with the program's floating-point computation. -/
def exactRoundDiv (num den : Nat) : Nat := (2 * num + den) / (2 * den)

/-- Question i of the 40-question divergence quiz: single choice with a
correct option a-i and an incorrect option b-i. -/
def bigQ (i : Nat) : QuestionM :=
  ⟨'q' :: Nat.toDigits 10 i, "Q".toList, singleChoiceT,
   [⟨'a' :: Nat.toDigits 10 i, "yes".toList, true⟩,
    ⟨'b' :: Nat.toDigits 10 i, "no".toList, false⟩], 0⟩

/-- A 40-question quiz — reachable, since the source caps options per
question at 10 but places no cap on questions per quiz. -/
def bigQuiz : QuizM := ⟨['b'], "Big Quiz".toList, (List.range 40).map bigQ, 0, 0⟩

/-- Answers to all 40 questions of `bigQuiz`: the first 23 correct, the
remaining 17 incorrect. -/
def bigAnswers : List JSVal :=
  (List.range 40).map (fun i =>
    JSVal.vObj
      [("questionId".toList, JSVal.vStr ('q' :: Nat.toDigits 10 i)),
       ("selectedOptionIds".toList,
        JSVal.vArr [JSVal.vStr ((if i < 23 then 'a' else 'b') :: Nat.toDigits 10 i)])])

/-- Counterexample to C4 as stated: submitting 23 correct answers out of
40 questions, the program reports percentage 57, while the claim's
round(score/total × 100) — exact half-up rounding of the rational
57.5 — is 58: the binary64 evaluation of (23/40)·100 lands just below
57.5, so Math.round truncates instead of rounding up. -/
theorem claim_C4_counterexample :
    ((QuizService.submitQuizAnswers [bigQuiz] (JSVal.vStr ['b'])
        (JSVal.vArr bigAnswers) 0).1.map
      (fun r => (r.stats.score, r.stats.total, r.stats.percentage))) =
      Except.ok (23, 40, 57) ∧
    exactRoundDiv (23 * 100) 40 = 58 :=
  ⟨rfl, rfl⟩

/-! ## C6: the submission envelope check -/

/-- Conditions under which one answer entry passes every per-entry check of
`validateAnswersFormat`: it is object-like, its questionId field is truthy
and names a question of the quiz, and its selectedOptionIds field is a
nonempty array. -/
def entryOk (quiz : QuizM) (e : JSVal) : Prop :=
  (e.truthy && e.typeofObject) = true ∧
  (e.getField "questionId".toList).truthy = true ∧
  (∃ q ∈ quiz.questions, e.getField "questionId".toList = JSVal.vStr q.id) ∧
  (∃ sel, e.getField "selectedOptionIds".toList = JSVal.vArr sel ∧ sel ≠ [])

/-- Rejection conditions of the claim, stated from its wording: not a
sequence; empty; more entries than questions; an entry that is not an
object, lacks a (truthy) questionId, or whose questionId matches no
question of this quiz; a questionId appearing more than once; or an entry
lacking selectedOptionIds as a non-empty sequence. -/
def claimEnvelopeRejects (answers : JSVal) (quiz : QuizM) : Prop :=
  match answers with
  | JSVal.vArr entries =>
    entries = [] ∨
    quiz.questions.length < entries.length ∨
    (∃ e ∈ entries,
      (¬ ((∃ fs, e = JSVal.vObj fs) ∨ (∃ xs, e = JSVal.vArr xs))) ∨
      (e.getField "questionId".toList).truthy = false ∨
      (∀ q ∈ quiz.questions, e.getField "questionId".toList ≠ JSVal.vStr q.id)) ∨
    ¬ (entries.map (fun e => e.getField "questionId".toList)).Nodup ∨
    (∃ e ∈ entries, ∀ sel, e.getField "selectedOptionIds".toList = JSVal.vArr sel → sel = [])
  | _ => True

/-- An `Except String Unit` is not ok exactly when it is not the ok value. -/
lemma except_isOk_false_iff (x : Except String Unit) :
    x.isOk = false ↔ ¬ (x = Except.ok ()) := by
  cases x with
  | error e => simp [Except.isOk, Except.toBool]
  | ok u => cases u; simp [Except.isOk, Except.toBool]

/-- The source's object check accepts exactly the objects and arrays. -/
lemma objLike_of_checks {x : JSVal} (h : (x.truthy && x.typeofObject) = true) :
    (∃ fs, x = JSVal.vObj fs) ∨ (∃ xs, x = JSVal.vArr xs) := by
  cases x with
  | vObj fs => exact Or.inl ⟨fs, rfl⟩
  | vArr xs => exact Or.inr ⟨xs, rfl⟩
  | vUndefined => simp [JSVal.truthy, JSVal.typeofObject] at h
  | vNull => simp [JSVal.truthy, JSVal.typeofObject] at h
  | vBool b => simp [JSVal.truthy, JSVal.typeofObject] at h
  | vNum n => simp [JSVal.truthy, JSVal.typeofObject] at h
  | vStr s => simp [JSVal.truthy, JSVal.typeofObject] at h

/-- Objects and arrays pass the source's object check. -/
lemma objLike_intro {x : JSVal}
    (h : (∃ fs, x = JSVal.vObj fs) ∨ (∃ xs, x = JSVal.vArr xs)) :
    (x.truthy && x.typeofObject) = true := by
  rcases h with ⟨fs, rfl⟩ | ⟨xs, rfl⟩ <;> rfl

/-- Characterisation of the entry loop: it succeeds exactly when every
entry passes its checks, the questionId values are pairwise distinct, and
no questionId repeats one already seen. -/
lemma checkEntries_ok_iff (quiz : QuizM) (entries : List JSVal) :
    ∀ (idx : Nat) (seen : List (List Char)),
      QuizService.checkEntries quiz entries idx seen = Except.ok () ↔
      ((∀ e ∈ entries, entryOk quiz e) ∧
       (entries.map (fun e => e.getField "questionId".toList)).Nodup ∧
       (∀ e ∈ entries, ∀ t ∈ seen, e.getField "questionId".toList ≠ JSVal.vStr t)) := by
  induction entries with
  | nil =>
    intro idx seen
    simp [QuizService.checkEntries]
  | cons e rest ih =>
    intro idx seen
    unfold QuizService.checkEntries
    by_cases g1 : (e.truthy && e.typeofObject) = true
    · rw [if_neg (fun h => h g1)]
      by_cases g2 : (e.getField "questionId".toList).truthy = true
      · rw [if_neg (fun h => h g2)]
        cases hqv : e.getField "questionId".toList with
        | vStr qid =>
          dsimp only
          by_cases g3 : quiz.questions.any (fun q => q.id = qid) = true
          · rw [if_neg (fun h => h g3)]
            have hq3 : ∃ q ∈ quiz.questions,
                e.getField "questionId".toList = JSVal.vStr q.id := by
              obtain ⟨q, hqmem, hqeq⟩ := List.any_eq_true.mp g3
              simp only [decide_eq_true_eq] at hqeq
              exact ⟨q, hqmem, by rw [hqv, hqeq]⟩
            by_cases g4 : qid ∈ seen
            · rw [if_pos g4]
              refine iff_of_false (by simp) ?_
              rintro ⟨-, -, hseen⟩
              exact (hseen e (List.mem_cons_self e rest) qid g4) hqv
            · rw [if_neg g4]
              cases hsel : e.getField "selectedOptionIds".toList with
              | vArr sel =>
                dsimp only
                by_cases g5 : sel.length = 0
                · rw [if_pos g5]
                  refine iff_of_false (by simp) ?_
                  rintro ⟨hall, -, -⟩
                  obtain ⟨-, -, -, sel', hsel', hne⟩ :=
                    hall e (List.mem_cons_self e rest)
                  rw [hsel] at hsel'
                  injection hsel' with hsel'
                  exact hne (hsel' ▸ List.length_eq_zero.mp g5)
                · rw [if_neg g5]
                  rw [ih (idx + 1) (qid :: seen)]
                  have hOkE : entryOk quiz e :=
                    ⟨g1, g2, hq3, sel, hsel, fun hn => g5 (by rw [hn]; rfl)⟩
                  constructor
                  · rintro ⟨hp, hnd, hdisj⟩
                    refine ⟨?_, ?_, ?_⟩
                    · intro x hx
                      rcases List.mem_cons.mp hx with rfl | hx
                      · exact hOkE
                      · exact hp x hx
                    · rw [List.map_cons, List.nodup_cons]
                      refine ⟨?_, hnd⟩
                      rw [hqv]
                      intro hmem
                      obtain ⟨x, hx, hxe⟩ := List.mem_map.mp hmem
                      exact (hdisj x hx qid (List.mem_cons_self qid seen)) hxe
                    · intro x hx t ht
                      rcases List.mem_cons.mp hx with rfl | hx
                      · rw [hqv]
                        intro heq
                        injection heq with heq
                        exact g4 (heq ▸ ht)
                      · exact hdisj x hx t (List.mem_cons_of_mem qid ht)
                  · rintro ⟨hall, hnd, hseen⟩
                    rw [List.map_cons, List.nodup_cons] at hnd
                    refine ⟨fun x hx => hall x (List.mem_cons_of_mem e hx), hnd.2, ?_⟩
                    intro x hx t ht
                    rcases List.mem_cons.mp ht with rfl | ht
                    · intro heq
                      apply hnd.1
                      rw [hqv]
                      exact List.mem_map.mpr ⟨x, hx, heq⟩
                    · exact hseen x (List.mem_cons_of_mem e hx) t ht
              | vUndefined =>
                refine iff_of_false (by simp) ?_
                rintro ⟨hall, -, -⟩
                obtain ⟨-, -, -, sel', hsel', -⟩ := hall e (List.mem_cons_self e rest)
                rw [hsel] at hsel'
                cases hsel'
              | vNull =>
                refine iff_of_false (by simp) ?_
                rintro ⟨hall, -, -⟩
                obtain ⟨-, -, -, sel', hsel', -⟩ := hall e (List.mem_cons_self e rest)
                rw [hsel] at hsel'
                cases hsel'
              | vBool b =>
                refine iff_of_false (by simp) ?_
                rintro ⟨hall, -, -⟩
                obtain ⟨-, -, -, sel', hsel', -⟩ := hall e (List.mem_cons_self e rest)
                rw [hsel] at hsel'
                cases hsel'
              | vNum n =>
                refine iff_of_false (by simp) ?_
                rintro ⟨hall, -, -⟩
                obtain ⟨-, -, -, sel', hsel', -⟩ := hall e (List.mem_cons_self e rest)
                rw [hsel] at hsel'
                cases hsel'
              | vStr t =>
                refine iff_of_false (by simp) ?_
                rintro ⟨hall, -, -⟩
                obtain ⟨-, -, -, sel', hsel', -⟩ := hall e (List.mem_cons_self e rest)
                rw [hsel] at hsel'
                cases hsel'
              | vObj fs =>
                refine iff_of_false (by simp) ?_
                rintro ⟨hall, -, -⟩
                obtain ⟨-, -, -, sel', hsel', -⟩ := hall e (List.mem_cons_self e rest)
                rw [hsel] at hsel'
                cases hsel'
          · rw [if_pos g3]
            refine iff_of_false (by simp) ?_
            rintro ⟨hall, -, -⟩
            obtain ⟨-, -, ⟨q, hqm, heq⟩, -⟩ := hall e (List.mem_cons_self e rest)
            rw [hqv] at heq
            injection heq with heq
            exact g3 (List.any_eq_true.mpr ⟨q, hqm, by simp [heq]⟩)
        | vUndefined =>
          rw [hqv] at g2
          simp [JSVal.truthy] at g2
        | vNull =>
          rw [hqv] at g2
          simp [JSVal.truthy] at g2
        | vBool b =>
          dsimp only
          refine iff_of_false (by simp) ?_
          rintro ⟨hall, -, -⟩
          obtain ⟨-, -, ⟨q, hqm, heq⟩, -⟩ := hall e (List.mem_cons_self e rest)
          rw [hqv] at heq
          cases heq
        | vNum n =>
          dsimp only
          refine iff_of_false (by simp) ?_
          rintro ⟨hall, -, -⟩
          obtain ⟨-, -, ⟨q, hqm, heq⟩, -⟩ := hall e (List.mem_cons_self e rest)
          rw [hqv] at heq
          cases heq
        | vArr xs =>
          dsimp only
          refine iff_of_false (by simp) ?_
          rintro ⟨hall, -, -⟩
          obtain ⟨-, -, ⟨q, hqm, heq⟩, -⟩ := hall e (List.mem_cons_self e rest)
          rw [hqv] at heq
          cases heq
        | vObj fs =>
          dsimp only
          refine iff_of_false (by simp) ?_
          rintro ⟨hall, -, -⟩
          obtain ⟨-, -, ⟨q, hqm, heq⟩, -⟩ := hall e (List.mem_cons_self e rest)
          rw [hqv] at heq
          cases heq
      · rw [if_pos g2]
        refine iff_of_false (by simp) ?_
        rintro ⟨hall, -, -⟩
        exact g2 (hall e (List.mem_cons_self e rest)).2.1
    · rw [if_pos g1]
      refine iff_of_false (by simp) ?_
      rintro ⟨hall, -, -⟩
      exact g1 (hall e (List.mem_cons_self e rest)).1

/-- C6: for a quiz with at least one question, the envelope check fails
with a ValidationError exactly when one of the claim's rejection
conditions holds (non-sequence, empty, too many entries, a non-object
entry, a missing or unmatched questionId, a duplicated questionId, or a
missing/empty selectedOptionIds sequence) and succeeds otherwise; and the
empty payload is rejected with exactly the message
"At least one answer must be provided". -/
theorem claim_C6_envelope_rejects_iff (answers : JSVal) (quiz : QuizM)
    (_hq : quiz.questions ≠ []) :
    ((QuizService.validateAnswersFormat answers quiz).isOk = false ↔
      claimEnvelopeRejects answers quiz) ∧
    QuizService.validateAnswersFormat (JSVal.vArr []) quiz =
      Except.error "At least one answer must be provided" := by
  refine ⟨?_, rfl⟩
  cases answers with
  | vArr entries =>
    unfold QuizService.validateAnswersFormat claimEnvelopeRejects
    dsimp only
    by_cases h1 : entries.length = 0
    · rw [if_pos h1]
      exact iff_of_true rfl (Or.inl (List.length_eq_zero.mp h1))
    · rw [if_neg h1]
      by_cases h2 : quiz.questions.length < entries.length
      · rw [if_pos h2]
        exact iff_of_true rfl (Or.inr (Or.inl h2))
      · rw [if_neg h2]
        rw [except_isOk_false_iff, checkEntries_ok_iff quiz entries 0 []]
        constructor
        · intro hnot
          by_cases hA : ∀ e ∈ entries, entryOk quiz e
          · by_cases hB : (entries.map (fun e => e.getField "questionId".toList)).Nodup
            · exact absurd ⟨hA, hB, by simp⟩ hnot
            · exact Or.inr (Or.inr (Or.inr (Or.inl hB)))
          · push_neg at hA
            obtain ⟨x, hx, hxn⟩ := hA
            by_cases c1 : (x.truthy && x.typeofObject) = true
            · by_cases c2 : (x.getField "questionId".toList).truthy = true
              · by_cases c3 : ∃ q ∈ quiz.questions,
                    x.getField "questionId".toList = JSVal.vStr q.id
                · refine Or.inr (Or.inr (Or.inr (Or.inr ⟨x, hx, ?_⟩)))
                  intro sel hsel
                  by_contra hne
                  exact hxn ⟨c1, c2, c3, sel, hsel, hne⟩
                · exact Or.inr (Or.inr (Or.inl ⟨x, hx,
                    Or.inr (Or.inr (fun q hqm heq => c3 ⟨q, hqm, heq⟩))⟩))
              · exact Or.inr (Or.inr (Or.inl ⟨x, hx, Or.inr (Or.inl (by
                  rw [Bool.not_eq_true] at c2
                  exact c2))⟩))
            · exact Or.inr (Or.inr (Or.inl ⟨x, hx,
                Or.inl (fun hobj => c1 (objLike_intro hobj))⟩))
        · intro hrej
          rintro ⟨hA, hB, -⟩
          rcases hrej with h | h | h | h | h
          · exact h1 (by rw [h]; rfl)
          · exact h2 h
          · obtain ⟨x, hx, hcase⟩ := h
            obtain ⟨o1, o2, o3, o4⟩ := hA x hx
            rcases hcase with hc | hc | hc
            · exact hc (objLike_of_checks o1)
            · rw [hc] at o2
              cases o2
            · obtain ⟨q, hqm, heq⟩ := o3
              exact (hc q hqm) heq
          · exact h hB
          · obtain ⟨x, hx, hbad⟩ := h
            obtain ⟨-, -, -, sel, hsel, hne⟩ := hA x hx
            exact hne (hbad sel hsel)
  | vUndefined => exact iff_of_true rfl trivial
  | vNull => exact iff_of_true rfl trivial
  | vBool b => exact iff_of_true rfl trivial
  | vNum n => exact iff_of_true rfl trivial
  | vStr t => exact iff_of_true rfl trivial
  | vObj fs => exact iff_of_true rfl trivial

/-- Witness for C6: the fixture quiz has a question, and the equivalence
and the empty-payload message hold there for a concrete payload. -/
theorem claim_C6_witness :
    wQuizFull.questions ≠ [] ∧
    (((QuizService.validateAnswersFormat (JSVal.vArr wAnswers) wQuizFull).isOk = false ↔
       claimEnvelopeRejects (JSVal.vArr wAnswers) wQuizFull) ∧
     QuizService.validateAnswersFormat (JSVal.vArr []) wQuizFull =
       Except.error "At least one answer must be provided") :=
  ⟨by decide, claim_C6_envelope_rejects_iff (JSVal.vArr wAnswers) wQuizFull (by decide)⟩
